import Mathlib

set_option maxRecDepth 40000

/-!
Shallow embedding of the Mavis HR bot synchronization core
(`app/services/utils.py`, `app/db/sync_1c.py`, `app/db/users.py`,
`app/db/roles.py`, `app/services/pulse_creator.py`) and proofs about it.

Conventions of the embedding:
* Python strings are Lean `String`; character-level operations are written
  structurally over `String.data` so that they evaluate inside the kernel.
* A Python value read out of a backend record is embedded as `Option String`
  when the code only ever treats it as a string or a null, and as `PyVal`
  (none / string / list-of-strings) where the code dispatches on the
  runtime shape (`Phones`, `Previous_surname`, the comma-joined set fields).
  `Option.none`/`PyVal.none` covers both "key absent" and "key present with
  null"; the dictionary default in `row.get(k, d)` is embedded with `getD`.
  The two are distinguishable in Python only for the `FIO` read in
  `sync_auth` (`get('FIO', '')`), where the distinction affects no claim.
* Backend tables are embedded as lists of records with a numeric row id;
  `update_record` patches the listed columns of the row with that id,
  `create_record` appends a row with a fresh id, `delete_record` removes
  the row.  The backend never fails in the embedding except where a claim
  is about failure, in which case outcomes are supplied by an explicit
  oracle argument.
* `datetime.now().date()` is a `today : PDate` parameter.
-/

/-- The dynamic shape of a record field as the Python code sees it:
null / missing, a string, or a list of strings. -/
inductive PyVal where
  | none : PyVal
  | str (s : String) : PyVal
  | list (l : List String) : PyVal
deriving DecidableEq, Repr

/-- Python truthiness of a `PyVal`: `None`, `''` and `[]` are falsy. -/
def PyVal.falsy : PyVal → Bool
  | .none => true
  | .str s => s = ""
  | .list l => l = []

/-- Python truthiness of an optional string (`None` and `''` are falsy). -/
def truthyStr : Option String → Bool
  | some s => s ≠ ""
  | none => false

/-- `row.get(key, '')`, conflating absent and null with the default. -/
def getStr (v : Option String) : String := v.getD ""

/- ------------------------------------------------------------------
Character-level string operations (structural, kernel-evaluable).
-/

/-- Split a character list at every character satisfying `p`, keeping empty
pieces, like `re.split` over a single-character class. -/
def chSplit (p : Char → Bool) : List Char → List (List Char)
  | [] => [[]]
  | c :: cs =>
    if p c then [] :: chSplit p cs
    else match chSplit p cs with
      | [] => [[c]]
      | g :: gs => (c :: g) :: gs

/-- `str.split` on a character predicate (pieces may be empty). -/
def strSplit (p : Char → Bool) (s : String) : List String :=
  (chSplit p s.data).map String.mk

/-- `str.strip()` (the rows at hand only carry ASCII whitespace). -/
def strTrim (s : String) : String :=
  String.mk (((s.data.dropWhile Char.isWhitespace).reverse.dropWhile Char.isWhitespace).reverse)

/-- Python `str.split()` with no argument: split on whitespace runs,
dropping empty pieces. -/
def strSplitWs (s : String) : List String :=
  (strSplit Char.isWhitespace s).filter (· ≠ "")

/-- `s.startswith(pre)`. -/
def chStartsWith : List Char → List Char → Bool
  | _, [] => true
  | [], _ :: _ => false
  | c :: cs, d :: ds => c = d && chStartsWith cs ds

/-- `pre in s` (substring containment), checked at every suffix. -/
def chContains (s pre : List Char) : Bool :=
  match s with
  | [] => chStartsWith [] pre
  | _ :: cs => chStartsWith s pre || chContains cs pre

/-- `re.sub(r'\D', '', s)`: keep only the (ASCII) digits. -/
def digitsOnly (s : String) : String :=
  String.mk (s.data.filter Char.isDigit)

/-- `Char.toLower` extended to the Cyrillic range, matching Python
`str.lower()` on the alphabets this repository's data uses. -/
def pyCharLower (c : Char) : Char :=
  if 'A' ≤ c ∧ c ≤ 'Z' then Char.ofNat (c.toNat + 32)
  else if 0x410 ≤ c.toNat ∧ c.toNat ≤ 0x42F then Char.ofNat (c.toNat + 0x20)
  else if c.toNat = 0x401 then Char.ofNat 0x451
  else c

/-- Python `str.lower()` (ASCII plus Cyrillic). -/
def pyLower (s : String) : String := String.mk (s.data.map pyCharLower)

/-- `s.replace(' ', '_')`. -/
def spacesToUnderscores (s : String) : String :=
  String.mk (s.data.map (fun c => if c = ' ' then '_' else c))

/- ------------------------------------------------------------------
`app/services/utils.py`
-/

/-- `utils.normalize_phone`: canonicalize one raw phone string.
Mobile canonical form is `+7` + 10 digits, landline is `NNN-NN-NN`.
Mirrors the source line by line (empty/garbage input gives `none`). -/
def normalizePhone (raw : Option String) : Option String :=
  match raw with
  | Option.none => Option.none
  | some r =>
    if r = "" then Option.none
    else
      let ds := digitsOnly r
      if ds = "" then Option.none
      else if ds.length = 7 then
        some (String.mk (ds.data.take 3) ++ "-" ++
              String.mk ((ds.data.drop 3).take 2) ++ "-" ++
              String.mk ((ds.data.drop 5).take 2))
      else
        let step : Option String :=
          if ds.length = 10 then some ("7" ++ ds)
          else if ds.length = 11 then
            if ds.data.take 1 = ['8'] then some ("7" ++ String.mk (ds.data.drop 1))
            else if ds.data.take 1 ≠ ['7'] then Option.none
            else some ds
          else Option.none
        match step with
        | Option.none => Option.none
        | some d2 =>
          if d2.length = 11 ∧ d2.data.take 1 = ['7'] then some ("+" ++ d2)
          else Option.none

/-- `utils.normalize_phones_string`: split a free-text multi-phone field on
commas/semicolons, then per part try a single parse, the 7-digit landline
special case, and finally a whitespace split. -/
def normalizePhonesString (s : String) : List String :=
  if s = "" then []
  else
    (strSplit (fun c => c = ',' || c = ';') (strTrim s)).foldl
      (fun acc part0 =>
        let part := strTrim part0
        if part = "" then acc
        else
          match normalizePhone (some part) with
          | some p => acc ++ [p]
          | Option.none =>
            let ds := digitsOnly part
            if ds.length = 7 then
              match normalizePhone (some part) with
              | some p => acc ++ [p]
              | Option.none => acc
            else
              (strSplitWs part).foldl
                (fun a sub0 =>
                  let sub := strTrim sub0
                  if sub = "" then a
                  else match normalizePhone (some sub) with
                       | some p => a ++ [p]
                       | Option.none => a)
                acc)
      []

/-- `utils.phones_to_set`: normalize a `Phones` field of any stored shape
(null / delimited string / list of strings) to a set of phones. -/
def phonesToSet (v : PyVal) : Finset String :=
  if v.falsy then ∅
  else
    match v with
    | .none => ∅
    | .str s => (normalizePhonesString s).toFinset
    | .list l => (l.foldl (fun acc item => acc ++ normalizePhonesString item) []).toFinset

/-- One comma-split pass of `values_to_set`: split on commas, trim, drop
empties (`re.split(r'\s*,\s*')` followed by `strip` has the same effect). -/
def splitCommaTrim (s : String) : List String :=
  ((strSplit (· = ',') s).map strTrim).filter (· ≠ "")

/-- `utils.values_to_set`: normalize a comma-joined set field of any stored
shape to a set of trimmed non-empty tokens. -/
def valuesToSet (v : PyVal) : Finset String :=
  if v.falsy then ∅
  else
    match v with
    | .none => ∅
    | .str s => (splitCommaTrim s).toFinset
    | .list l => (l.foldl (fun acc item => acc ++ splitCommaTrim item) []).toFinset

/-- `utils.surname_to_str`: first element if a list, the raw string
otherwise, empty string for falsy input. -/
def surnameToStr : PyVal → String
  | .none => ""
  | .str s => s
  | .list [] => ""
  | .list (h :: _) => h

/- ------------------------------------------------------------------
Calendar dates (`datetime.date`, `timedelta(days=…)`, `relativedelta`).
-/

/-- A calendar date, as `datetime.date`. -/
structure PDate where
  year : Nat
  month : Nat
  day : Nat
deriving DecidableEq, Repr

/-- Gregorian leap year. -/
def isLeap (y : Nat) : Bool := (y % 4 = 0 && y % 100 ≠ 0) || y % 400 = 0

/-- Days in a month of a given year. -/
def daysInMonth (y m : Nat) : Nat :=
  if m = 2 then (if isLeap y then 29 else 28)
  else if m = 4 ∨ m = 6 ∨ m = 9 ∨ m = 11 then 30
  else 31

/-- `date` comparison `a < b`: lexicographic on (year, month, day),
which is exactly the calendar order Python's `date.__lt__` implements. -/
def PDate.Lt (a b : PDate) : Prop :=
  a.year < b.year ∨ (a.year = b.year ∧
    (a.month < b.month ∨ (a.month = b.month ∧ a.day < b.day)))

/-- `date` comparison `a <= b`. -/
def PDate.Le (a b : PDate) : Prop :=
  a.year < b.year ∨ (a.year = b.year ∧
    (a.month < b.month ∨ (a.month = b.month ∧ a.day ≤ b.day)))

instance (a b : PDate) : Decidable (PDate.Lt a b) := by
  unfold PDate.Lt; infer_instance

instance (a b : PDate) : Decidable (PDate.Le a b) := by
  unfold PDate.Le; infer_instance

/-- The day after `d` (`d + timedelta(days=1)` on valid dates). -/
def nextDay : PDate → PDate
  | ⟨y, m, d⟩ =>
    if d < daysInMonth y m then ⟨y, m, d + 1⟩
    else if m < 12 then ⟨y, m + 1, 1⟩
    else ⟨y + 1, 1, 1⟩

/-- `d + timedelta(days=n)` on valid dates, as iterated successor. -/
def addDays : PDate → Nat → PDate
  | d, 0 => d
  | ⟨y, m, dd⟩, n + 1 => addDays (nextDay ⟨y, m, dd⟩) n

/-- Parse a non-empty all-digit string as a number, structurally. -/
def strToNat? (s : String) : Option Nat :=
  if s.data ≠ [] ∧ s.data.all Char.isDigit then
    some (s.data.foldl (fun n c => n * 10 + (c.toNat - 48)) 0)
  else Option.none

/-- `strptime(s, '%Y-%m-%d').date()`: three dash-separated digit groups,
month, day and year in calendar range; anything else fails. -/
def parseDate (s : String) : Option PDate :=
  match strSplit (· = '-') s with
  | [ys, ms, ds] =>
    match strToNat? ys, strToNat? ms, strToNat? ds with
    | some y, some m, some d =>
      if 1 ≤ y ∧ y ≤ 9999 ∧ ys.length ≤ 4 ∧ ms.length ≤ 2 ∧ ds.length ≤ 2 ∧
         1 ≤ m ∧ m ≤ 12 ∧ 1 ≤ d ∧ d ≤ daysInMonth y m
      then some ⟨y, m, d⟩ else Option.none
    | _, _, _ => Option.none
  | _ => Option.none

/-- The `_parse_date` pattern used throughout the source: falsy string or
parse failure gives `None`, otherwise the parsed date. -/
def parseDateOpt (v : Option String) : Option PDate :=
  match v with
  | Option.none => Option.none
  | some s => if s = "" then Option.none else parseDate s

/-- `d - relativedelta(months=k)`: month arithmetic with the day clamped
to the length of the target month. -/
def subMonths (d : PDate) (k : Nat) : PDate :=
  let t := d.year * 12 + (d.month - 1) - k
  let y := t / 12
  let m := t % 12 + 1
  ⟨y, m, min d.day (daysInMonth y m)⟩

/-- `d - relativedelta(years=k)`: same month, day clamped (Feb 29 cases). -/
def subYears (d : PDate) (k : Nat) : PDate :=
  ⟨d.year - k, d.month, min d.day (daysInMonth (d.year - k) d.month)⟩

/-- `strftime('%Y-%m-%d')` / `date.isoformat()`. -/
def formatDate (d : PDate) : String :=
  let pad2 : Nat → String := fun n => if n < 10 then "0" ++ toString n else toString n
  let pad4 : Nat → String := fun n =>
    if n < 10 then "000" ++ toString n
    else if n < 100 then "00" ++ toString n
    else if n < 1000 then "0" ++ toString n
    else toString n
  pad4 d.year ++ "-" ++ pad2 d.month ++ "-" ++ pad2 d.day

/- ------------------------------------------------------------------
Pivot-table records (`app/db/sync_1c.py`, `app/db/users.py`).
-/

/-- One row of the NocoDB pivot table.  Field names follow the dictionary
keys of the source (`Name` is the identity / SNILS).  `snils` stands for a
`SNILS` column: no writer in this repository ever sets it, but
`RoleChecker` in `app/db/roles.py` reads it, so it is carried as an
always-absent phantom column. -/
structure PivotRow where
  id : Nat
  name : Option String := Option.none
  fio : Option String := Option.none
  previousSurname : PyVal := PyVal.none
  companySegment : Option String := Option.none
  companies : PyVal := PyVal.none
  departments : PyVal := PyVal.none
  positions : PyVal := PyVal.none
  internalNumbers : Option String := Option.none
  dateEmployment : Option String := Option.none
  emailMavis : Option String := Option.none
  emailOther : Option String := Option.none
  emailVotonia : Option String := Option.none
  phones : PyVal := PyVal.none
  location : Option String := Option.none
  photo : Option String := Option.none
  isArchived : Option Bool := Option.none
  snils : Option String := Option.none
deriving DecidableEq, Repr

/-- A field dictionary passed to `create_record` / `update_record` for the
pivot table.  Every write dictionary in `sync_1c.py` carries all pivot
columns except `Is_archived`, which `to_pivot_table_format` omits
(`isArchived = none` embeds the absent key). -/
structure PivotWrite where
  name : Option String := Option.none
  fio : Option String := Option.none
  previousSurname : PyVal := PyVal.none
  companySegment : Option String := Option.none
  companies : PyVal := PyVal.none
  departments : PyVal := PyVal.none
  positions : PyVal := PyVal.none
  internalNumbers : Option String := Option.none
  dateEmployment : Option String := Option.none
  emailMavis : Option String := Option.none
  emailOther : Option String := Option.none
  emailVotonia : Option String := Option.none
  phones : PyVal := PyVal.none
  location : Option String := Option.none
  photo : Option String := Option.none
  isArchived : Option Bool := Option.none
deriving DecidableEq, Repr

/-- The write dictionary holding exactly the current values of a row
(the "candidate built from the same underlying data with no change"). -/
def PivotRow.toWrite (r : PivotRow) : PivotWrite :=
  { name := r.name, fio := r.fio, previousSurname := r.previousSurname,
    companySegment := r.companySegment, companies := r.companies,
    departments := r.departments, positions := r.positions,
    internalNumbers := r.internalNumbers, dateEmployment := r.dateEmployment,
    emailMavis := r.emailMavis, emailOther := r.emailOther,
    emailVotonia := r.emailVotonia, phones := r.phones,
    location := r.location, photo := r.photo, isArchived := r.isArchived }

/-- `sync_1c.pivot_data_changed`: structural diff between the stored pivot
row and the fresh candidate.  First difference wins; the hire date is not
part of the comparison. -/
def pivotDataChanged (existing : PivotRow) (newData : PivotWrite) : Bool :=
  if getStr existing.fio ≠ getStr newData.fio then true
  else if surnameToStr existing.previousSurname ≠ surnameToStr newData.previousSurname then true
  else if valuesToSet existing.companies ≠ valuesToSet newData.companies then true
  else if valuesToSet existing.departments ≠ valuesToSet newData.departments then true
  else if valuesToSet existing.positions ≠ valuesToSet newData.positions then true
  else if phonesToSet existing.phones ≠ phonesToSet newData.phones then true
  else false

/-- The change condition as the specification words it: some tracked
dimension differs between the two sides. -/
def changedSpec (e : PivotRow) (n : PivotWrite) : Prop :=
  getStr e.fio ≠ getStr n.fio ∨
  surnameToStr e.previousSurname ≠ surnameToStr n.previousSurname ∨
  valuesToSet e.companies ≠ valuesToSet n.companies ∨
  valuesToSet e.departments ≠ valuesToSet n.departments ∨
  valuesToSet e.positions ≠ valuesToSet n.positions ∨
  phonesToSet e.phones ≠ phonesToSet n.phones

/- ------------------------------------------------------------------
`app/services/pulse_creator.py`: HolidayChecker and PulseTaskCreator.
-/

/-- Days since 1970-01-01 (civil-from-date), used only for the weekday. -/
def rataDie (d : PDate) : Int :=
  let y : Int := (d.year : Int) - (if d.month ≤ 2 then 1 else 0)
  let m : Int := d.month
  let era : Int := y / 400
  let yoe : Int := y - era * 400
  let doy : Int := (153 * (m + (if m > 2 then -3 else 9)) + 2) / 5 + (d.day : Int) - 1
  let doe : Int := yoe * 365 + yoe / 4 - yoe / 100 + doy
  era * 146097 + doe - 719468

/-- `date.weekday()`: Monday = 0 … Sunday = 6. -/
def pyWeekday (d : PDate) : Int := (rataDie d + 3) % 7

/-- `HolidayChecker.FIXED_HOLIDAYS`, as (day, month) pairs, source order. -/
def fixedHolidays : List (Nat × Nat) :=
  [(1, 1), (2, 1), (3, 1), (4, 1), (5, 1), (6, 1), (8, 1), (7, 1),
   (23, 2), (8, 3), (1, 5), (9, 5), (12, 6), (4, 11), (31, 12)]

/-- `HolidayChecker.is_holiday`: a fixed holiday, or anywhere in Jan 1–8. -/
def isHoliday (d : PDate) : Bool :=
  fixedHolidays.any (fun p => d.day = p.1 && d.month = p.2) ||
    (d.month = 1 && 1 ≤ d.day && d.day ≤ 8)

/-- `HolidayChecker.is_weekend`: Saturday (5) or Sunday (6). -/
def isWeekend (d : PDate) : Bool := pyWeekday d ≥ 5

/-- `HolidayChecker.is_non_working_day`. -/
def isNonWorkingDay (d : PDate) : Bool := isHoliday d || isWeekend d

/-- `HolidayChecker.get_next_working_day`: roll forward day by day while
non-working.  The source's while-loop always terminates within a dozen
steps (the longest non-working run around the New Year block); 100 units
of fuel are strictly more than it can ever consume, so on every state the
loop reaches the fuel bound is never hit. -/
def getNextWorkingDayFuel : Nat → PDate → PDate
  | 0, d => d
  | n + 1, d => if isNonWorkingDay d then getNextWorkingDayFuel n (nextDay d) else d

/-- `HolidayChecker.adjust_poll_date`. -/
def adjustPollDate (d : PDate) : PDate :=
  if isNonWorkingDay d then getNextWorkingDayFuel 100 d else d

/-- `PulseTaskCreator.POLL_TYPES`: survey types and day offsets, in the
source's insertion order (the display names are not used downstream). -/
def pollTypes : List (String × Nat) :=
  [("1_week", 7), ("1_month", 30), ("3_months", 91), ("6_months", 183), ("1_year", 365)]

/-- `PulseTaskCreator._get_needed_polls`: nothing if today is strictly
past hire + 365 days; otherwise the types whose unadjusted due date is
strictly in the future. -/
def neededPolls (today : PDate) (employmentDate : PDate) : List String :=
  if PDate.Lt (addDays employmentDate 365) today then []
  else ((pollTypes.filter fun p => PDate.Lt today (addDays employmentDate p.2)).map Prod.fst)

/-- `PulseTaskCreator._calculate_and_adjust_poll_date` (adjusted date and
whether adjustment happened); the unknown-type `ValueError` branch is
unreachable from `create_tasks` and embedded as an identity result. -/
def calcAndAdjustPollDate (employmentDate : PDate) (ptype : String) : PDate × Bool :=
  match pollTypes.find? (fun p => p.1 = ptype) with
  | Option.none => (employmentDate, false)
  | some pr =>
    let pollDate := addDays employmentDate pr.2
    let adjusted := adjustPollDate pollDate
    (adjusted, adjusted ≠ pollDate)

/-- The `user_data` dictionary handed to `create_tasks`. -/
structure PulseUserData where
  fio : Option String := Option.none
  snils : Option String := Option.none
  department : Option String := Option.none
  position : Option String := Option.none
  email : Option String := Option.none
  phonePrivate : Option String := Option.none
  mainCompany : Option String := Option.none
  companies : PyVal := PyVal.list []
  dateEmployment : Option String := Option.none
deriving DecidableEq, Repr

/-- One pulse-task row, with the columns `_create_single_task` writes. -/
structure PulseTask where
  id : Nat
  fio : Option String
  snils : Option String
  department : Option String
  position : Option String
  email : Option String
  phonePrivate : Option String
  mainCompany : Option String
  companies : PyVal
  dataEmployment : String
  dataPoll : String
  type : String
  status : String
  idMessenger : String
  createdAt : String
  dateAdjusted : Bool
deriving DecidableEq, Repr

/-- `PulseTaskCreator.task_exists`: the `(SNILS,eq,…)~and(Type,eq,…)`
backend filter. -/
def taskExists (tasks : List PulseTask) (snils : Option String) (ptype : String) : Bool :=
  tasks.any fun t => t.snils = snils && t.type = ptype

/-- `PulseTaskCreator._create_single_task`, with the backend write outcome
supplied by `createOk` (false covers both a falsy create result and an
exception that `create_tasks`'s per-task handler absorbs).  Returns the
task table, the next fresh id, and the reported success. -/
def createSingleTask (tasks : List PulseTask) (user : PulseUserData)
    (employmentDate : PDate) (ptype : String) (createOk : String → Bool)
    (createdAt : String) (nextId : Nat) : List PulseTask × Nat × Bool :=
  if taskExists tasks user.snils ptype then (tasks, nextId, true)
  else
    let pd := calcAndAdjustPollDate employmentDate ptype
    if createOk ptype then
      (tasks ++ [⟨nextId, user.fio, user.snils, user.department, user.position,
                 user.email, user.phonePrivate, user.mainCompany, user.companies,
                 formatDate employmentDate, formatDate pd.1, ptype, "waiting",
                 "", createdAt, pd.2⟩], nextId + 1, true)
    else (tasks, nextId, false)

/-- The per-type loop of `PulseTaskCreator.create_tasks`, counting
successes (a task that already exists counts as a success). -/
def createLoop (user : PulseUserData) (d : PDate) (createOk : String → Bool)
    (createdAt : String) :
    List String → List PulseTask → Nat → Nat → List PulseTask × Nat × Nat
  | [], ts, ni, c => (ts, ni, c)
  | p :: rest, ts, ni, c =>
    let r := createSingleTask ts user d p createOk createdAt ni
    createLoop user d createOk createdAt rest r.1 r.2.1 (if r.2.2 then c + 1 else c)

/-- `PulseTaskCreator.create_tasks`: parse the hire date (false on
failure), compute the needed polls (an empty list returns true), create
each needed task, and report whether at least one succeeded. -/
def createTasks (today : PDate) (createdAt : String) (createOk : String → Bool)
    (tasks : List PulseTask) (nextId : Nat) (user : PulseUserData) :
    List PulseTask × Nat × Bool :=
  match parseDateOpt user.dateEmployment with
  | Option.none => (tasks, nextId, false)
  | some d =>
    let needed := neededPolls today d
    if needed = [] then (tasks, nextId, true)
    else
      let r := createLoop user d createOk createdAt needed tasks nextId 0
      (r.1, r.2.1, decide (0 < r.2.2))

/- ------------------------------------------------------------------
The write-retry loop of `PulseTaskCreator._create_single_task`
(`pulse_creator.py` lines 254–277), modelled at the level of the three
backend attempts.  `pulse_creator.py` imports `logging`, `datetime`,
`typing`, `Config`, `NocoDBClient` and `User` — it never imports
`asyncio` — yet the retry branch runs `await asyncio.sleep(retry_delay)`,
so evaluating that name raises `NameError`.
-/

/-- Outcome of one `client.create_record` call: a result (truthy or falsy)
or an exception. -/
inductive CreateAttempt where
  | ok (result : Bool) : CreateAttempt
  | exn : CreateAttempt
deriving DecidableEq, Repr

/-- How the write phase of `_create_single_task` terminates: a Python
`return`, or a `NameError` escaping because `asyncio` is unbound. -/
inductive WriteOutcome where
  | ret (b : Bool) : WriteOutcome
  | nameError : WriteOutcome
deriving DecidableEq, Repr

/-- The `for attempt in range(1, max_retries + 1)` loop over the remaining
attempts' outcomes.  A truthy result returns true; a falsy result returns
false at once (no retry); an exception on the last attempt logs and
returns false; an exception on an earlier attempt reaches
`await asyncio.sleep(retry_delay)`, which raises `NameError` because the
module never imports `asyncio`.  The fall-through `return False` after the
loop is the `[]` case. -/
def attemptLoop : List CreateAttempt → WriteOutcome
  | [] => .ret false
  | a :: rest =>
    match a with
    | .ok true => .ret true
    | .ok false => .ret false
    | .exn => if rest.isEmpty then .ret false else .nameError

/-- The write phase with `max_retries = 3`: three planned attempts. -/
def createSingleTaskWritePhase (a1 a2 a3 : CreateAttempt) : WriteOutcome :=
  attemptLoop [a1, a2, a3]

/- ------------------------------------------------------------------
`app/db/users.py` (`User.from_1c_data`) and
`app/db/sync_1c.py` (`aggregate_1c_users`).
-/

/-- One raw row of the 1C source pull (dictionary keys as in the source:
`Name` is the identity / SNILS, `FIO` the full name). -/
structure SrcRow where
  name : Option String := Option.none
  fio : Option String := Option.none
  previousSurname : Option String := Option.none
  dateEmployment : Option String := Option.none
  phonePrivate : Option String := Option.none
  company : Option String := Option.none
  department : Option String := Option.none
  position : Option String := Option.none
  isMain : Option String := Option.none
deriving DecidableEq, Repr

/-- `organization.Company`; pydantic requires `title` non-empty
(`min_length=1`), enforced by `mkCompany`. -/
structure Company1C where
  id : String
  title : String
  segment : String
deriving DecidableEq, Repr

/-- `Company(...)` construction: pydantic raises on an empty title. -/
def mkCompany (id title segment : String) : Option Company1C :=
  if title = "" then Option.none else some ⟨id, title, segment⟩

/-- `organization.Department` (`title` non-empty). -/
structure Department1C where
  id : String
  title : String
deriving DecidableEq, Repr

/-- `users.Employment`: pydantic declares `company` as required and
non-optional, so construction with `company=None` raises. -/
structure Employment1C where
  company : Company1C
  department : Option Department1C := Option.none
  position : Option String := Option.none
  dateEmployment : Option PDate := Option.none
  isMain : Bool := false
deriving DecidableEq, Repr

/-- `users.User`, restricted to the fields the synchronization core reads.
`previousSurname` is declared `Optional[str]` but `aggregate_1c_users`
assigns a list to it after construction (pydantic does not re-validate on
assignment), hence `PyVal`. -/
structure SrcUser where
  id : String
  fio : String
  previousSurname : PyVal := PyVal.none
  phonePrivate : Option String := Option.none
  phones : List String := []
  employments : List Employment1C := []
  dateEmployment : Option PDate := Option.none
  employmentStrings : List String := []
deriving DecidableEq, Repr

/-- `User.from_1c_data`: `None` when identity or name is falsy, and also
when any construction inside the `try` raises — in particular
`Company(title='')` when the row's `Company` is empty or absent. -/
def from1cData (row : SrcRow) : Option SrcUser :=
  if truthyStr row.name = false ∨ truthyStr row.fio = false then Option.none
  else
    let phonePrivate := getStr row.phonePrivate
    let phones := if phonePrivate ≠ "" then normalizePhonesString phonePrivate else []
    let employmentDate := parseDateOpt row.dateEmployment
    let companyName := getStr row.company
    match mkCompany (spacesToUnderscores (pyLower companyName)) companyName "ОБА" with
    | Option.none => Option.none
    | some company =>
      let departmentName := getStr row.department
      let department : Option Department1C :=
        if departmentName ≠ "" then
          some ⟨spacesToUnderscores (pyLower departmentName), departmentName⟩
        else Option.none
      some { id := getStr row.name, fio := getStr row.fio,
             phonePrivate := some phonePrivate, phones := phones,
             employments := [⟨company, department, row.position, employmentDate,
                             row.isMain = some "Да"⟩],
             dateEmployment := employmentDate }

/-- Append to a keyed group list, creating the group on first sight
(`defaultdict(list)` insertion order). -/
def addToGroup {α : Type} : List (String × List α) → String → α → List (String × List α)
  | [], k, x => [(k, [x])]
  | (k2, xs) :: t, k, x =>
    if k2 = k then (k2, xs ++ [x]) :: t else (k2, xs) :: addToGroup t k x

/-- The grouping pass of `aggregate_1c_users`: rows with a falsy `Name`
never enter any group. -/
def groupBySnils (rows : List SrcRow) : List (String × List SrcRow) :=
  rows.foldl
    (fun gs r => if truthyStr r.name then addToGroup gs (getStr r.name) r else gs) []

/-- The exception escaping `aggregate_1c_users` (pydantic
`ValidationError` from `Employment(company=None)`). -/
inductive AggError where
  | validationError : AggError
deriving DecidableEq, Repr

/-- The accumulator of the per-group row loop.  Python accumulates sets;
the embedding canonicalizes set order to first insertion. -/
structure AggState where
  allPhones : List String
  prevSurnames : List String
  earliest : Option PDate
  employments : List Employment1C
  employmentStrings : List String
deriving DecidableEq, Repr

/-- Insert preserving set semantics (skip if already present). -/
def addUnique (l : List String) (s : String) : List String :=
  if s ∈ l then l else l ++ [s]

/-- Insert many. -/
def addAllUnique (l : List String) (xs : List String) : List String :=
  xs.foldl addUnique l

/-- One iteration of the `for row in rows` loop of `aggregate_1c_users`:
accumulate previous surname, minimum hire date (a parse failure just
contributes no date), normalized phones, the `Employment` record (raising
`ValidationError` when the row has no company, since `Employment.company`
is required), and one comparison string per phone (or one with an empty
phone slot). -/
def aggRowStep (st : AggState) (row : SrcRow) : Except AggError AggState :=
  let prev :=
    if truthyStr row.previousSurname then addUnique st.prevSurnames (getStr row.previousSurname)
    else st.prevSurnames
  let rowDate := parseDateOpt row.dateEmployment
  let earliest :=
    match rowDate with
    | some rd =>
      match st.earliest with
      | Option.none => some rd
      | some e => if PDate.Lt rd e then some rd else st.earliest
    | Option.none => st.earliest
  let phonePrivate := getStr row.phonePrivate
  let phonesFromRow := if phonePrivate ≠ "" then normalizePhonesString phonePrivate else []
  let allPhones := addAllUnique st.allPhones phonesFromRow
  let companyName := strTrim (getStr row.company)
  let deptName := strTrim (getStr row.department)
  let posName := strTrim (getStr row.position)
  if companyName = "" then Except.error AggError.validationError
  else
    let company : Company1C := ⟨spacesToUnderscores (pyLower companyName), companyName, "ОБА"⟩
    let department : Option Department1C :=
      if deptName ≠ "" then some ⟨spacesToUnderscores (pyLower deptName), deptName⟩
      else Option.none
    let employment : Employment1C :=
      ⟨company, department, if posName = "" then Option.none else some posName,
       rowDate, row.isMain = some "Да"⟩
    let fioS := strTrim (getStr row.fio)
    let prevS := strTrim (getStr row.previousSurname)
    let phoneSlots := if phonesFromRow = [] then [""] else phonesFromRow
    let empStrings := phoneSlots.foldl
      (fun acc phone => addUnique acc
        (companyName ++ "|" ++ deptName ++ "|" ++ posName ++ "|" ++
         fioS ++ "|" ++ prevS ++ "|" ++ phone))
      st.employmentStrings
    Except.ok ⟨allPhones, prev, earliest, st.employments ++ [employment], empStrings⟩

/-- Process one identity's group: seed a `User` from the first row (a
falsy name there, or a failing construction, silently drops the whole
group), then fold the row loop over every row of the group. -/
def processGroup (rows : List SrcRow) : Except AggError (Option SrcUser) :=
  match rows with
  | [] => Except.ok Option.none
  | first :: _ =>
    match from1cData first with
    | Option.none => Except.ok Option.none
    | some user0 => do
      let final ← rows.foldlM aggRowStep
        ⟨addAllUnique [] user0.phones, [], user0.dateEmployment, [], []⟩
      pure (some { user0 with
        employments := final.employments,
        employmentStrings := final.employmentStrings,
        previousSurname :=
          if final.prevSurnames = [] then PyVal.none else PyVal.list final.prevSurnames,
        dateEmployment := final.earliest,
        phones := final.allPhones })

/-- `sync_1c.aggregate_1c_users`: group by identity, aggregate each group;
an exception escaping a group body aborts the whole aggregation. -/
def aggregate1cUsers (rows : List SrcRow) : Except AggError (List (String × SrcUser)) :=
  (groupBySnils rows).foldlM
    (fun acc pr => do
      let u ← processGroup pr.2
      match u with
      | Option.none => pure acc
      | some user => pure (acc ++ [(pr.1, user)]))
    []

/-- Executable equality on `Except`, used to evaluate aggregation results. -/
instance {e a : Type} [DecidableEq e] [DecidableEq a] : DecidableEq (Except e a) := fun x y =>
  match x, y with
  | Except.error v, Except.error w =>
    if h : v = w then Decidable.isTrue (by rw [h])
    else Decidable.isFalse (fun hc => by injection hc with h2; exact h h2)
  | Except.ok v, Except.ok w =>
    if h : v = w then Decidable.isTrue (by rw [h])
    else Decidable.isFalse (fun hc => by injection hc with h2; exact h h2)
  | Except.error _, Except.ok _ => Decidable.isFalse (fun hc => Except.noConfusion hc)
  | Except.ok _, Except.error _ => Decidable.isFalse (fun hc => Except.noConfusion hc)

/- ------------------------------------------------------------------
`app/db/organization.py` (segment detector) and
`users.User.to_pivot_table_format`.
-/

/-- `organization.CompanySegment`. -/
inductive CompanySegment where
  | mavis : CompanySegment
  | votonya : CompanySegment
  | both : CompanySegment
deriving DecidableEq, Repr

/-- `.value` of the enum members. -/
def CompanySegment.value : CompanySegment → String
  | .mavis => "МАВИС"
  | .votonya => "ВОТОНЯ"
  | .both => "ОБА"

/-- `CompanySegmentDetector.MAVIS_COMPANIES`. -/
def mavisCompanies : List String :=
  ["соцстрой", "мавис-монтаж", "мавис-недвижимость", "мавис-монолит",
   "стройарсенал", "мавис-инновации", "мавис-град", "мавис-строй",
   "мавис-бетон", "графстрой", "стройтек", "петергофстрой",
   "новаград", "лигастрой", "мавис"]

/-- `re.sub(r'["\'«»]', '', name)`: drop the four quote characters. -/
def stripQuotes (s : String) : String :=
  String.mk (s.data.filter
    (fun c => !(c = '"' || c = Char.ofNat 39 || c = '«' || c = '»')))

/-- `CompanySegmentDetector._clean_name`. -/
def cleanName (s : String) : String := pyLower (strTrim (stripQuotes s))

/-- `CompanySegmentDetector._is_in_mavis_list`. -/
def isInMavisList (name : String) : Bool :=
  let c := cleanName name
  mavisCompanies.contains c || chContains c.data "мавис".data

/-- `CompanySegmentDetector.detect_segment_for_companies`. -/
def detectSegmentForCompanies (companyNames : List String) : CompanySegment :=
  if companyNames = [] then .mavis
  else
    let cleaned := (companyNames.filter (· ≠ "")).map cleanName
    if cleaned.length = 1 ∧ chContains (cleaned.headD "").data "вотоня".data then .votonya
    else if cleaned.all isInMavisList then .mavis
    else .both

/-- `', '.join(sorted(values))` over a set held as a first-insertion list,
`None` when empty (Python sorts strings by code points). -/
def joinSortedSet (l : List String) : Option String :=
  if l = [] then Option.none
  else some (String.intercalate ", " (List.insertionSort (fun a b => a.data ≤ b.data) l))

/-- `User.to_pivot_table_format`: flatten employments into company /
department / position sets, take the minimum employment date, run the
segment detector, and emit the pivot write dictionary (no `Is_archived`
key). -/
def toPivotTableFormat (u : SrcUser) : PivotWrite :=
  let step := u.employments.foldl
    (fun (acc : List String × List String × List String × Option PDate) emp =>
      let companyName := if emp.company.title = "" then "" else strTrim emp.company.title
      let deptName :=
        match emp.department with
        | some dpt => strTrim dpt.title
        | Option.none => ""
      let posName :=
        match emp.position with
        | some p => strTrim p
        | Option.none => ""
      let cs := if companyName ≠ "" then addUnique acc.1 companyName else acc.1
      let ds := if deptName ≠ "" then addUnique acc.2.1 deptName else acc.2.1
      let ps := if posName ≠ "" then addUnique acc.2.2.1 posName else acc.2.2.1
      let ed :=
        match emp.dateEmployment with
        | some d =>
          match acc.2.2.2 with
          | Option.none => some d
          | some e => if PDate.Lt d e then some d else acc.2.2.2
        | Option.none => acc.2.2.2
      (cs, ds, ps, ed))
    ([], [], [], u.dateEmployment)
  let toVal : Option String → PyVal := fun o =>
    match o with
    | Option.none => PyVal.none
    | some s => PyVal.str s
  { name := some u.id, fio := some u.fio, previousSurname := u.previousSurname,
    companySegment := some (detectSegmentForCompanies step.1).value,
    companies := toVal (joinSortedSet step.1),
    departments := toVal (joinSortedSet step.2.1),
    positions := toVal (joinSortedSet step.2.2.1),
    internalNumbers := Option.none,
    dateEmployment := step.2.2.2.map formatDate,
    emailMavis := Option.none, emailOther := Option.none, emailVotonia := Option.none,
    phones := if u.phones = [] then PyVal.none else PyVal.list u.phones,
    location := Option.none, photo := Option.none, isArchived := Option.none }

/- ------------------------------------------------------------------
`sync_1c.sync_pivot` over an embedded pivot table.
-/

/-- The pivot table plus a fresh-id counter. -/
structure PivotState where
  rows : List PivotRow
  nextId : Nat
deriving DecidableEq, Repr

/-- One backend write of the pivot sync pass. -/
inductive POp where
  | update (rid : Nat) (w : PivotWrite) : POp
  | create (w : PivotWrite) : POp
deriving DecidableEq, Repr

/-- Patch a row with a write dictionary: every pivot column except
`SNILS` is carried by the dictionary (`Is_archived` only when present). -/
def mergeWrite (r : PivotRow) (w : PivotWrite) : PivotRow :=
  { id := r.id, snils := r.snils, name := w.name, fio := w.fio,
    previousSurname := w.previousSurname, companySegment := w.companySegment,
    companies := w.companies, departments := w.departments, positions := w.positions,
    internalNumbers := w.internalNumbers, dateEmployment := w.dateEmployment,
    emailMavis := w.emailMavis, emailOther := w.emailOther, emailVotonia := w.emailVotonia,
    phones := w.phones, location := w.location, photo := w.photo,
    isArchived :=
      match w.isArchived with
      | some b => some b
      | Option.none => r.isArchived }

/-- A row created from a write dictionary with a fresh id. -/
def newRowFromWrite (rid : Nat) (w : PivotWrite) : PivotRow :=
  { id := rid, snils := Option.none, name := w.name, fio := w.fio,
    previousSurname := w.previousSurname, companySegment := w.companySegment,
    companies := w.companies, departments := w.departments, positions := w.positions,
    internalNumbers := w.internalNumbers, dateEmployment := w.dateEmployment,
    emailMavis := w.emailMavis, emailOther := w.emailOther, emailVotonia := w.emailVotonia,
    phones := w.phones, location := w.location, photo := w.photo,
    isArchived := w.isArchived }

/-- `update_record` / `create_record` against the pivot table. -/
def applyPOp (st : PivotState) : POp → PivotState
  | .update rid w => ⟨st.rows.map (fun r => if r.id = rid then mergeWrite r w else r), st.nextId⟩
  | .create w => ⟨st.rows ++ [newRowFromWrite st.nextId w], st.nextId + 1⟩

/-- Run a batch of writes in order. -/
def applyPOps (st : PivotState) (ops : List POp) : PivotState := ops.foldl applyPOp st

/-- Python dict insert: a duplicate key keeps its position, last value
wins. -/
def setKey {α : Type} : List (String × α) → String → α → List (String × α)
  | [], k, v => [(k, v)]
  | (k2, v2) :: t, k, v =>
    if k2 = k then (k2, v) :: t else (k2, v2) :: setKey t k v

/-- `get_pivot_table_users`: the `{row['Name']: row}` snapshot (rows with a
falsy `Name` are skipped). -/
def pivotDict (rows : List PivotRow) : List (String × PivotRow) :=
  rows.foldl
    (fun acc r => if truthyStr r.name then setKey acc (getStr r.name) r else acc) []

/-- Python `dict.get` / `in` on an embedded dictionary. -/
def lookupD {α : Type} (d : List (String × α)) (k : String) : Option α :=
  (d.find? (fun pr => pr.1 = k)).map Prod.snd

/-- `archive_pivot`'s write dictionary: keep `Name` and `Date_employment`,
null every other column, set `Is_archived`. -/
def archivedData (row : PivotRow) : PivotWrite :=
  { name := row.name, dateEmployment := row.dateEmployment, isArchived := some true }

/-- The writes issued for one 1C user in `sync_pivot`'s first phase: keep
the existing hire date when truthy, otherwise adopt the 1C date (marking
`date_was_added_now`); update (clearing `Is_archived`) when the change
detector fires or a date was just added; create when the identity is new.
The `create_pulse` fan-out touches only the pulse-task table and is not a
pivot write. -/
def pivotStepOps (snapshot : List (String × PivotRow)) (snils : String)
    (user : SrcUser) : List POp :=
  let newData0 := toPivotTableFormat user
  match lookupD snapshot snils with
  | some existingData =>
    let pair : PivotWrite × Bool :=
      if truthyStr existingData.dateEmployment then
        ({ newData0 with dateEmployment := existingData.dateEmployment }, false)
      else
        match user.dateEmployment with
        | some d => ({ newData0 with dateEmployment := some (formatDate d) }, true)
        | Option.none => ({ newData0 with dateEmployment := Option.none }, false)
    if pivotDataChanged existingData pair.1 || pair.2 then
      [POp.update existingData.id { pair.1 with isArchived := some false }]
    else []
  | Option.none => [POp.create newData0]

/-- All writes of one `sync_pivot` pass: the per-user phase in source
order, then the archive phase over the snapshot identities absent from
the source and not already archived. -/
def syncPivotOps (src : List (String × SrcUser))
    (snapshot : List (String × PivotRow)) : List POp :=
  (src.foldl (fun acc pr => acc ++ pivotStepOps snapshot pr.1 pr.2) []) ++
  ((snapshot.filter
      (fun pr => pr.1 ∉ src.map Prod.fst ∧ !(pr.2.isArchived.getD false))).map
    (fun pr => POp.update pr.2.id (archivedData pr.2)))

/-- `sync_pivot`: take the snapshot, compute the writes, run them. -/
def syncPivot (src : List (String × SrcUser)) (st : PivotState) : PivotState :=
  applyPOps st (syncPivotOps src (pivotDict st.rows))

/-- The cumulative effect on one row id of the updates in a batch that
target it (creates and updates of other rows do not touch it). -/
def foldUpd (rid : Nat) (ops : List POp) (r : PivotRow) : PivotRow :=
  ops.foldl
    (fun acc op =>
      match op with
      | POp.update rid2 w => if rid2 = rid then mergeWrite acc w else acc
      | POp.create _ => acc) r

/-- Concrete pivot row for the C3 witness. -/
def c3Row : PivotRow :=
  { id := 1, name := some "111-222-333", fio := some "Ivanov Ivan",
    dateEmployment := some "2024-01-10" }

/-- Concrete pivot state for the C3 witness. -/
def c3St : PivotState := ⟨[c3Row], 2⟩

/-- Concrete source aggregate for the C3 witness: same identity, but the
source carries the different hire date 2023-05-01. -/
def c3User : SrcUser :=
  { id := "111-222-333", fio := "Ivanov Ivan", dateEmployment := some ⟨2023, 5, 1⟩ }

/-- Concrete source pull for the C3 witness. -/
def c3Src : List (String × SrcUser) := [("111-222-333", c3User)]

/-- Concrete pivot row for the C4 witness. -/
def c4Row : PivotRow :=
  { id := 1, name := some "444-555-666", fio := some "Petrov Petr",
    dateEmployment := some "2020-01-01", phones := PyVal.list ["+79110000000"] }

/-- Concrete pivot state for the C4 witness. -/
def c4St : PivotState := ⟨[c4Row], 2⟩

/- ------------------------------------------------------------------
`sync_1c.sync_auth` over an embedded authorization table.
-/

/-- One row of the authorization table.  `snils` stands for a `SNILS`
column that `RoleChecker` reads but no writer of this repository ever
sets (`sync_auth` writes the identity under `Name`). -/
structure AuthRow where
  id : Nat
  name : Option String := Option.none
  fio : Option String := Option.none
  phone : Option String := Option.none
  role : Option String := Option.none
  idMessenger : Option String := Option.none
  dateRegistration : Option String := Option.none
  snils : Option String := Option.none
deriving DecidableEq, Repr

/-- The authorization table plus a fresh-id counter. -/
structure AuthState where
  rows : List AuthRow
  nextId : Nat
deriving DecidableEq, Repr

/-- One backend write against the authorization table: `create_auth`,
`update_auth` (which patches only `FIO` and `Role`), or `delete_auth`. -/
inductive AOp where
  | create (r : AuthRow) : AOp
  | update (rid : Nat) (fio : String) (role : String) : AOp
  | delete (rid : Nat) : AOp
deriving DecidableEq, Repr

/-- Apply one authorization write. -/
def applyAOp (st : AuthState) : AOp → AuthState
  | .create r => ⟨st.rows ++ [r], st.nextId + 1⟩
  | .update rid f ro =>
    ⟨st.rows.map (fun r => if r.id = rid then { r with fio := some f, role := some ro } else r),
     st.nextId⟩
  | .delete rid => ⟨st.rows.filter (fun r => r.id ≠ rid), st.nextId⟩

/-- Apply a batch of authorization writes in order. -/
def applyAOps (st : AuthState) (ops : List AOp) : AuthState := ops.foldl applyAOp st

/-- The role computation of `sync_auth`: `employee` unless the parsed
hire date is strictly after `today - relativedelta(months=3)`. -/
def roleFor (today : PDate) (dateStr : Option String) : String :=
  match parseDateOpt dateStr with
  | Option.none => "employee"
  | some d => if PDate.Lt (subMonths today 3) d then "newcomer" else "employee"

/-- The mobile filter of `sync_auth`: starts with `+7` and carries exactly
11 digits. -/
def isMobilePhone (p : String) : Bool :=
  chStartsWith p.data "+7".data && (digitsOnly p).length = 11

/-- `sync_auth`'s phone pipeline on the stored `Phones` value: normalize
the free-text field, keep the mobiles.  A null/absent or empty value
yields no phones; a non-empty list value makes `normalize_phones_string`
raise `AttributeError`, which the per-user handler absorbs after zero
writes — the same state effect as yielding no phones. -/
def mobilePhonesOfVal (v : PyVal) : List String :=
  match v with
  | PyVal.str s => if s = "" then [] else (normalizePhonesString s).filter isMobilePhone
  | PyVal.none => []
  | PyVal.list _ => []

/-- The active/archived partition of `sync_auth`: absent `Is_archived`
means active, `True` means archived, anything else active. -/
def isActivePivot (r : PivotRow) : Bool :=
  match r.isArchived with
  | Option.none => true
  | some b => !b

/-- `get_auth`: group the authorization rows by truthy `Name`. -/
def groupAuth (rows : List AuthRow) : List (String × List AuthRow) :=
  rows.foldl
    (fun gs r => if truthyStr r.name then addToGroup gs (getStr r.name) r else gs) []

/-- The authorization row `sync_auth` writes through `create_auth`. -/
def mkAuthRow (snils fio phone role : String) (rid : Nat) : AuthRow :=
  { id := rid, name := some snils, fio := some fio, phone := some phone,
    role := some role, idMessenger := some "" }

/-- Create one authorization row per phone, threading state and log. -/
def createAuthRows (snils fio role : String) (phones : List String)
    (acc : AuthState × List AOp) : AuthState × List AOp :=
  phones.foldl
    (fun acc phone =>
      (applyAOp acc.1 (AOp.create (mkAuthRow snils fio phone role acc.1.nextId)),
       acc.2 ++ [AOp.create (mkAuthRow snils fio phone role acc.1.nextId)]))
    acc

/-- Patch `FIO`/`Role` on each listed record. -/
def updateAuthRows (fio role : String) (records : List AuthRow)
    (acc : AuthState × List AOp) : AuthState × List AOp :=
  records.foldl
    (fun acc r =>
      (applyAOp acc.1 (AOp.update r.id fio role), acc.2 ++ [AOp.update r.id fio role]))
    acc

/-- Delete each listed record. -/
def deleteAuthRows (records : List AuthRow)
    (acc : AuthState × List AOp) : AuthState × List AOp :=
  records.foldl
    (fun acc r =>
      (applyAOp acc.1 (AOp.delete r.id), acc.2 ++ [AOp.delete r.id]))
    acc

/-- The body of `sync_auth`'s active-user loop for one pivot record:
compute role and mobile phones; skip entirely without mobiles; create one
row per mobile when the identity is absent from the auth snapshot;
otherwise update every row whose `FIO`/`Role` diverges and create rows
for mobiles not yet present. -/
def syncAuthUserStep (today : PDate) (authSnapshot : List (String × List AuthRow))
    (snils : String) (pu : PivotRow) (st : AuthState) : AuthState × List AOp :=
  let role := roleFor today pu.dateEmployment
  let fio := getStr pu.fio
  let mobiles := mobilePhonesOfVal pu.phones
  if mobiles = [] then (st, [])
  else
    match lookupD authSnapshot snils with
    | Option.none => createAuthRows snils fio role mobiles (st, [])
    | some existingRecords =>
      let toUpdate :=
        existingRecords.filter (fun r => !(r.fio = some fio && r.role = some role))
      let afterUpd := updateAuthRows fio role toUpdate (st, [])
      let existingPhones := existingRecords.map (fun r => getStr r.phone)
      let newPhones := mobiles.filter (fun p => p ≠ "" && p ∉ existingPhones)
      createAuthRows snils fio role newPhones afterUpd

/-- `sync_auth`: partition pivot records, take one auth snapshot, run the
active-user loop in order, re-read the (now live) table, and delete every
row of each archived identity.  Returns the final table and the write
log. -/
def syncAuth (today : PDate) (pivotUsers : List (String × PivotRow))
    (st : AuthState) : AuthState × List AOp :=
  let active := pivotUsers.filter (fun pr => isActivePivot pr.2)
  let archived := pivotUsers.filter (fun pr => pr.2.isArchived = some true)
  let authSnapshot := groupAuth st.rows
  let afterActive := active.foldl
    (fun (acc : AuthState × List AOp) pr =>
      let r := syncAuthUserStep today authSnapshot pr.1 pr.2 acc.1
      (r.1, acc.2 ++ r.2))
    (st, [])
  let authUpdated := groupAuth afterActive.1.rows
  archived.foldl
    (fun acc pr =>
      match lookupD authUpdated pr.1 with
      | Option.none => acc
      | some records => deleteAuthRows records acc)
    afterActive

/- ------------------------------------------------------------------
The daily role recheck (`app/db/roles.py`).
-/

/-- `RoleChecker._is_still_newcomer`: without a date the user is kept a
newcomer; otherwise newcomer iff the hire date is strictly after
`today - relativedelta(months=3)`. -/
def isStillNewcomer (today : PDate) (employmentDate : Option PDate) : Bool :=
  match employmentDate with
  | Option.none => true
  | some d => decide (PDate.Lt (subMonths today 3) d)

/-- `RoleChecker._check_user_role`: read the auth row's `SNILS` column
(falsy means give up), find the first pivot row whose `SNILS` column
matches, parse its `Date_employment` and report whether the user stopped
being a newcomer.  Both `get('SNILS')` reads are embedded as the `snils`
field. -/
def checkUserRole (today : PDate) (user : AuthRow) (users1c : List PivotRow) : Bool :=
  match user.snils with
  | Option.none => false
  | some s =>
    if s = "" then false
    else
      match users1c.find? (fun u => u.snils = some s) with
      | Option.none => false
      | some user1c => !(isStillNewcomer today (parseDateOpt user1c.dateEmployment))

/-- `RoleChecker.check_and_update_roles`: filter the auth table to
`newcomer` rows, bail out on an empty newcomer list or an empty pivot
pull, and otherwise patch `Role` to `employee` on every row whose check
succeeded. -/
def checkAndUpdateRoles (today : PDate) (authRows : List AuthRow)
    (usersPivot : List PivotRow) : List AuthRow :=
  let newcomers := authRows.filter (fun r => r.role = some "newcomer")
  if newcomers = [] then authRows
  else if usersPivot = [] then authRows
  else
    newcomers.foldl
      (fun rows user =>
        if checkUserRole today user usersPivot then
          rows.map (fun r => if r.id = user.id then { r with role := some "employee" } else r)
        else rows)
      authRows

def c1Auth : AuthRow :=
  { id := 1, name := some "111-222", fio := some "Ivanov", phone := some "+79991234567",
    role := some "newcomer", idMessenger := some "" }

def c1Pivot : PivotRow :=
  { id := 1, name := some "111-222", fio := some "Ivanov",
    dateEmployment := some "2025-01-01" }

def c6Pu : PivotRow :=
  { id := 1, name := some "111-222", fio := some "Ivanov",
    dateEmployment := some "2025-05-01", phones := PyVal.str "+79991234567" }

/-- The authorization rows `sync_auth` keeps under one identity (`Name`
column equal to `s`). -/
def nameRows (s : String) (rows : List AuthRow) : List AuthRow :=
  rows.filter (fun r => r.name = some s)

/-- Frame invariant threaded through `sync_auth`: ids stay below the
fresh-id counter, ids stay pairwise distinct, and identity `s` keeps
exactly the rows `orig`. -/
def AuthInv (s : String) (orig : List AuthRow) (st : AuthState) : Prop :=
  (∀ r ∈ st.rows, r.id < st.nextId) ∧
  (st.rows.map AuthRow.id).Nodup ∧
  nameRows s st.rows = orig

def c10Pu : PivotRow :=
  { id := 10, name := some "111-222", fio := some "Ivanov",
    dateEmployment := some "2020-01-01", phones := PyVal.str "3214567" }

def c10Arch : PivotRow :=
  { id := 11, name := some "333-444", fio := some "Petrov", isArchived := some true }

def c10RowA : AuthRow :=
  { id := 1, name := some "111-222", fio := some "Old Name",
    phone := some "+79991234567", role := some "employee" }

def c10RowB : AuthRow :=
  { id := 2, name := some "333-444", fio := some "Petrov",
    phone := some "+79992222222", role := some "employee" }

def c10St : AuthState := ⟨[c10RowA, c10RowB], 3⟩

theorem PDate.lt_irrefl (a : PDate) : ¬ PDate.Lt a a := by
  unfold PDate.Lt; omega

theorem PDate.lt_of_le_of_lt {a b c : PDate} (h1 : PDate.Le a b) (h2 : PDate.Lt b c) :
    PDate.Lt a c := by
  unfold PDate.Le at h1; unfold PDate.Lt at h2 ⊢; omega

theorem PDate.le_trans {a b c : PDate} (h1 : PDate.Le a b) (h2 : PDate.Le b c) :
    PDate.Le a c := by
  unfold PDate.Le at h1 h2 ⊢; omega

theorem PDate.not_lt_of_le {a b : PDate} (h : PDate.Le a b) : ¬ PDate.Lt b a := by
  unfold PDate.Le at h; unfold PDate.Lt; omega

theorem PDate.le_nextDay (d : PDate) : PDate.Le d (nextDay d) := by
  obtain ⟨y, m, dd⟩ := d
  simp only [nextDay]
  split
  · show PDate.Le ⟨y, m, dd⟩ ⟨y, m, dd + 1⟩
    unfold PDate.Le
    dsimp only
    omega
  split
  · show PDate.Le ⟨y, m, dd⟩ ⟨y, m + 1, 1⟩
    unfold PDate.Le
    dsimp only
    omega
  · show PDate.Le ⟨y, m, dd⟩ ⟨y + 1, 1, 1⟩
    unfold PDate.Le
    dsimp only
    omega

theorem PDate.le_addDays (d : PDate) (n : Nat) : PDate.Le d (addDays d n) := by
  induction n generalizing d with
  | zero =>
    show PDate.Le d d
    unfold PDate.Le
    omega
  | succ k ih =>
    obtain ⟨y, m, dd⟩ := d
    show PDate.Le ⟨y, m, dd⟩ (addDays (nextDay ⟨y, m, dd⟩) k)
    exact PDate.le_trans (PDate.le_nextDay ⟨y, m, dd⟩) (ih (nextDay ⟨y, m, dd⟩))

theorem addDays_add (d : PDate) (a b : Nat) :
    addDays d (a + b) = addDays (addDays d a) b := by
  induction a generalizing d with
  | zero => rw [Nat.zero_add]; rfl
  | succ k ih =>
    obtain ⟨y, m, dd⟩ := d
    have h1 : k + 1 + b = (k + b) + 1 := by omega
    rw [h1]
    show addDays (nextDay ⟨y, m, dd⟩) (k + b) = addDays (addDays (nextDay ⟨y, m, dd⟩) k) b
    exact ih (nextDay ⟨y, m, dd⟩)

theorem PDate.le_addDays_mono (d : PDate) {a b : Nat} (h : a ≤ b) :
    PDate.Le (addDays d a) (addDays d b) := by
  have : b = a + (b - a) := by omega
  rw [this, addDays_add]
  exact PDate.le_addDays (addDays d a) (b - a)

/-- C5: the change detector returns true iff full name (null read as
empty), normalized previous surname, one of the three comma-split set
fields, or the normalized phone set differs; the hire date never
influences the result; and on a candidate carrying exactly the stored
values it returns false. -/
theorem claim_C5_change_detector :
    (∀ e n, pivotDataChanged e n = true ↔ changedSpec e n) ∧
    (∀ e n d1 d2,
      pivotDataChanged { e with dateEmployment := d1 } { n with dateEmployment := d2 } =
        pivotDataChanged e n) ∧
    (∀ r, pivotDataChanged r r.toWrite = false) := by
  refine ⟨?_, ?_, ?_⟩
  · intro e n
    unfold pivotDataChanged changedSpec
    split_ifs <;> simp_all
  · intro e n d1 d2
    rfl
  · intro r
    unfold pivotDataChanged PivotRow.toWrite
    split_ifs <;> simp_all

theorem neededPolls_sublist_nodup (today d : PDate) : (neededPolls today d).Nodup := by
  unfold neededPolls
  split
  · exact List.nodup_nil
  · have hsub : ((pollTypes.filter fun p => PDate.Lt today (addDays d p.2)).map Prod.fst).Sublist
        (pollTypes.map Prod.fst) :=
      (List.filter_sublist pollTypes).map Prod.fst
    exact hsub.nodup (by decide)

theorem pollTypes_offset_le (pr : String × Nat) (h : pr ∈ pollTypes) : pr.2 ≤ 365 := by
  fin_cases h <;> decide

/-- C7: pulse eligibility — (i) a survey type is needed iff today is not
strictly past hire + 365 days and its unadjusted due date (hire + its
fixed offset) is strictly in the future; (ii) when today is strictly past
hire + 365 days, `create_tasks` creates nothing; (iii) a hire date exactly
365 days before today yields no tasks. -/
theorem claim_C7_pulse_eligibility :
    (∀ today d p, p ∈ neededPolls today d ↔
      (¬ PDate.Lt (addDays d 365) today ∧
        ∃ off, (p, off) ∈ pollTypes ∧ PDate.Lt today (addDays d off))) ∧
    (∀ today createdAt ok tasks ni u d,
      parseDateOpt u.dateEmployment = some d →
      PDate.Lt (addDays d 365) today →
      createTasks today createdAt ok tasks ni u = (tasks, ni, true) ∧
        neededPolls today d = []) ∧
    (∀ today createdAt ok tasks ni u d,
      parseDateOpt u.dateEmployment = some d →
      addDays d 365 = today →
      createTasks today createdAt ok tasks ni u = (tasks, ni, true) ∧
        neededPolls today d = []) := by
  have hmem : ∀ today d p, p ∈ neededPolls today d ↔
      (¬ PDate.Lt (addDays d 365) today ∧
        ∃ off, (p, off) ∈ pollTypes ∧ PDate.Lt today (addDays d off)) := by
    intro today d p
    unfold neededPolls
    split
    · rename_i h
      simp only [List.not_mem_nil, false_iff]
      intro hc
      exact hc.1 h
    · rename_i h
      simp only [List.mem_map, List.mem_filter]
      constructor
      · rintro ⟨⟨q, off⟩, ⟨hq, hlt⟩, rfl⟩
        exact ⟨h, off, hq, of_decide_eq_true hlt⟩
      · rintro ⟨-, off, hq, hlt⟩
        exact ⟨(p, off), ⟨hq, decide_eq_true hlt⟩, rfl⟩
  have hboundary : ∀ today d : PDate, addDays d 365 = today → neededPolls today d = [] := by
    intro today d h
    unfold neededPolls
    rw [if_neg]
    · rw [List.map_eq_nil_iff]
      rw [List.filter_eq_nil_iff]
      rintro ⟨q, off⟩ hq
      have hle : PDate.Le (addDays d off) (addDays d 365) :=
        PDate.le_addDays_mono d (pollTypes_offset_le _ hq)
      rw [h] at hle
      simpa using PDate.not_lt_of_le hle
    · rw [h]
      exact PDate.lt_irrefl today
  have hnone : ∀ (today : PDate) createdAt ok tasks ni u (d : PDate),
      parseDateOpt u.dateEmployment = some d →
      neededPolls today d = [] →
      createTasks today createdAt ok tasks ni u = (tasks, ni, true) := by
    intro today createdAt ok tasks ni u d hparse hneed
    unfold createTasks
    rw [hparse]
    simp [hneed]
  refine ⟨hmem, ?_, ?_⟩
  · intro today createdAt ok tasks ni u d hparse hlt
    have hneed : neededPolls today d = [] := by
      unfold neededPolls
      rw [if_pos hlt]
    exact ⟨hnone today createdAt ok tasks ni u d hparse hneed, hneed⟩
  · intro today createdAt ok tasks ni u d hparse heq
    have hneed := hboundary today d heq
    exact ⟨hnone today createdAt ok tasks ni u d hparse hneed, hneed⟩

/-- Witness for C7 at concrete inputs: hire date 2023-06-02 is exactly 365
days before today 2024-06-01 (no tasks); hire 2023-01-01 is strictly more
than a year before (no tasks); and the membership characterization at a
fresh hire. -/
theorem claim_C7_pulse_eligibility_witness :
    (("1_week" ∈ neededPolls ⟨2024, 6, 1⟩ ⟨2024, 5, 30⟩ ↔
      (¬ PDate.Lt (addDays ⟨2024, 5, 30⟩ 365) ⟨2024, 6, 1⟩ ∧
        ∃ off, ("1_week", off) ∈ pollTypes ∧
          PDate.Lt ⟨2024, 6, 1⟩ (addDays ⟨2024, 5, 30⟩ off))) ∧
     createTasks ⟨2024, 6, 1⟩ "2024-06-01T12:00:00" (fun _ => true) [] 0
        { snils := some "111-222-333", dateEmployment := some "2023-01-01" } = ([], 0, true)) ∧
    createTasks ⟨2024, 6, 1⟩ "2024-06-01T12:00:00" (fun _ => true) [] 0
        { snils := some "111-222-333", dateEmployment := some "2023-06-02" } = ([], 0, true) :=
  ⟨⟨claim_C7_pulse_eligibility.1 ⟨2024, 6, 1⟩ ⟨2024, 5, 30⟩ "1_week",
    (claim_C7_pulse_eligibility.2.1 ⟨2024, 6, 1⟩ "2024-06-01T12:00:00" (fun _ => true) [] 0
      { snils := some "111-222-333", dateEmployment := some "2023-01-01" } ⟨2023, 1, 1⟩
      (by decide) (by decide)).1⟩,
   (claim_C7_pulse_eligibility.2.2 ⟨2024, 6, 1⟩ "2024-06-01T12:00:00" (fun _ => true) [] 0
      { snils := some "111-222-333", dateEmployment := some "2023-06-02" } ⟨2023, 6, 2⟩
      (by decide) (by decide)).1⟩

theorem taskExists_append (ts extra : List PulseTask) (s : Option String) (p : String) :
    taskExists (ts ++ extra) s p = (taskExists ts s p || taskExists extra s p) := by
  simp [taskExists, List.any_append]

theorem createLoop_pos_iff (user : PulseUserData) (d : PDate) (ok : String → Bool)
    (ca : String) (l : List String) :
    ∀ (tasks extra : List PulseTask) (ni c : Nat),
    l.Nodup →
    (∀ t ∈ extra, t.type ∉ l) →
    (0 < (createLoop user d ok ca l (tasks ++ extra) ni c).2.2 ↔
      0 < c ∨ ∃ p ∈ l, taskExists tasks user.snils p = true ∨ ok p = true) := by
  induction l with
  | nil =>
    intro tasks extra ni c _ _
    simp [createLoop]
  | cons p rest ih =>
    intro tasks extra ni c hnd hex
    have hnd' : rest.Nodup := hnd.of_cons
    have hpnot : p ∉ rest := (List.nodup_cons.mp hnd).1
    have hextra_p : taskExists extra user.snils p = false := by
      rw [taskExists, List.any_eq_false]
      intro t ht
      have hne : t.type ≠ p := fun hc => hex t ht (hc ▸ List.mem_cons_self p rest)
      simp [hne]
    have hte : taskExists (tasks ++ extra) user.snils p = taskExists tasks user.snils p := by
      rw [taskExists_append, hextra_p, Bool.or_false]
    by_cases hex1 : taskExists (tasks ++ extra) user.snils p = true
    · have htasks : taskExists tasks user.snils p = true := by rw [← hte]; exact hex1
      have hr : createSingleTask (tasks ++ extra) user d p ok ca ni =
          (tasks ++ extra, ni, true) := by
        rw [createSingleTask, if_pos hex1]
      have hstep : createLoop user d ok ca (p :: rest) (tasks ++ extra) ni c =
          createLoop user d ok ca rest (tasks ++ extra) ni (c + 1) := by
        rw [createLoop, hr]
        rfl
      rw [hstep, ih tasks extra ni (c + 1) hnd'
        (fun t ht hmem => hex t ht (List.mem_cons_of_mem p hmem))]
      constructor
      · intro _
        exact Or.inr ⟨p, List.mem_cons_self p rest, Or.inl htasks⟩
      · intro _
        exact Or.inl (by omega)
    · have hex1' : taskExists (tasks ++ extra) user.snils p = false :=
        Bool.eq_false_iff.mpr hex1
      have htasks' : taskExists tasks user.snils p = false := by rw [← hte]; exact hex1'
      by_cases hok : ok p = true
      · have hr : createSingleTask (tasks ++ extra) user d p ok ca ni =
            ((tasks ++ extra) ++
              [⟨ni, user.fio, user.snils, user.department, user.position,
                user.email, user.phonePrivate, user.mainCompany, user.companies,
                formatDate d, formatDate (calcAndAdjustPollDate d p).1, p, "waiting",
                "", ca, (calcAndAdjustPollDate d p).2⟩], ni + 1, true) := by
          rw [createSingleTask, if_neg (by simp [hex1']), if_pos hok]
        have hstep : createLoop user d ok ca (p :: rest) (tasks ++ extra) ni c =
            createLoop user d ok ca rest
              (tasks ++ (extra ++
                [⟨ni, user.fio, user.snils, user.department, user.position,
                  user.email, user.phonePrivate, user.mainCompany, user.companies,
                  formatDate d, formatDate (calcAndAdjustPollDate d p).1, p, "waiting",
                  "", ca, (calcAndAdjustPollDate d p).2⟩])) (ni + 1) (c + 1) := by
          rw [createLoop, hr, List.append_assoc]
          rfl
        have hnewextra : ∀ t ∈ extra ++
            [(⟨ni, user.fio, user.snils, user.department, user.position,
              user.email, user.phonePrivate, user.mainCompany, user.companies,
              formatDate d, formatDate (calcAndAdjustPollDate d p).1, p, "waiting",
              "", ca, (calcAndAdjustPollDate d p).2⟩ : PulseTask)], t.type ∉ rest := by
          intro t ht
          rcases List.mem_append.mp ht with h1 | h2
          · exact fun hmem => hex t h1 (List.mem_cons_of_mem p hmem)
          · rw [List.mem_singleton] at h2
            subst h2
            simpa using hpnot
        rw [hstep, ih tasks _ (ni + 1) (c + 1) hnd' hnewextra]
        constructor
        · intro _
          exact Or.inr ⟨p, List.mem_cons_self p rest, Or.inr hok⟩
        · intro _
          exact Or.inl (by omega)
      · have hok' : ok p = false := Bool.eq_false_iff.mpr hok
        have hr : createSingleTask (tasks ++ extra) user d p ok ca ni =
            (tasks ++ extra, ni, false) := by
          rw [createSingleTask, if_neg (by simp [hex1']), if_neg (by simp [hok'])]
        have hstep : createLoop user d ok ca (p :: rest) (tasks ++ extra) ni c =
            createLoop user d ok ca rest (tasks ++ extra) ni c := by
          rw [createLoop, hr]
          rfl
        rw [hstep, ih tasks extra ni c hnd'
          (fun t ht hmem => hex t ht (List.mem_cons_of_mem p hmem))]
        constructor
        · rintro (hc | ⟨q, hq, hsucc⟩)
          · exact Or.inl hc
          · exact Or.inr ⟨q, List.mem_cons_of_mem p hq, hsucc⟩
        · rintro (hc | ⟨q, hq, hsucc⟩)
          · exact Or.inl hc
          · rcases List.mem_cons.mp hq with rfl | hq'
            · exfalso
              rcases hsucc with h | h
              · rw [htasks'] at h
                exact Bool.false_ne_true h
              · rw [hok'] at h
                exact Bool.false_ne_true h
            · exact Or.inr ⟨q, hq', hsucc⟩

/-- C8 (as stated it fails; see `claim_C8_counterexample`): with the hire
date exactly 365 days before today, no poll types are needed, the task
table is untouched (nothing created), none pre-exist (it starts empty),
and yet `create_tasks` returns true — the claim demands false here. -/
theorem claim_C8_counterexample :
    (createTasks ⟨2024, 6, 1⟩ "2024-06-01T12:00:00" (fun _ => true) [] 0
      { snils := some "111-222-333", dateEmployment := some "2023-06-02" }).1 = [] ∧
    (createTasks ⟨2024, 6, 1⟩ "2024-06-01T12:00:00" (fun _ => true) [] 0
      { snils := some "111-222-333", dateEmployment := some "2023-06-02" }).2.2 = true := by
  constructor
  · decide
  · decide

/-- C8 (amended): `create_tasks` returns true iff the hire date parses and
either no survey type is needed at all, or some needed type's task already
exists or is created successfully; in particular a run with zero needed
types returns true even though it creates nothing. -/
theorem claim_C8_create_tasks_contract (today : PDate) (createdAt : String)
    (ok : String → Bool) (tasks : List PulseTask) (ni : Nat) (u : PulseUserData) :
    (createTasks today createdAt ok tasks ni u).2.2 = true ↔
      ∃ d, parseDateOpt u.dateEmployment = some d ∧
        (neededPolls today d = [] ∨
          ∃ p ∈ neededPolls today d, taskExists tasks u.snils p = true ∨ ok p = true) := by
  unfold createTasks
  cases hparse : parseDateOpt u.dateEmployment with
  | none => simp
  | some d =>
    dsimp only
    by_cases hneed : neededPolls today d = []
    · rw [if_pos hneed]
      constructor
      · intro _
        exact ⟨d, rfl, Or.inl hneed⟩
      · intro _
        rfl
    · rw [if_neg hneed]
      dsimp only
      have hloop := createLoop_pos_iff u d ok createdAt (neededPolls today d)
        tasks [] ni 0 (neededPolls_sublist_nodup today d) (by intro t ht; cases ht)
      rw [List.append_nil] at hloop
      simp only [decide_eq_true_eq]
      rw [hloop]
      constructor
      · rintro (hc | hex)
        · omega
        · exact ⟨d, rfl, Or.inr hex⟩
      · rintro ⟨d2, hd2, hcases⟩
        have hdd : d2 = d := by
          injection hd2 with h
          exact h.symm
        subst hdd
        rcases hcases with h | h
        · exact absurd h hneed
        · exact Or.inr h

/-- Witness for the amended C8 at concrete inputs: with one needed type
whose creation succeeds, the contract reports true. -/
theorem claim_C8_create_tasks_contract_witness :
    (createTasks ⟨2024, 6, 1⟩ "t" (fun _ => true) [] 0
      { snils := some "111-222-333", dateEmployment := some "2024-05-30" }).2.2 = true :=
  (claim_C8_create_tasks_contract ⟨2024, 6, 1⟩ "t" (fun _ => true) [] 0
    { snils := some "111-222-333", dateEmployment := some "2024-05-30" }).mpr
    ⟨⟨2024, 5, 30⟩, by decide,
     Or.inr ⟨"1_week", by decide, Or.inr rfl⟩⟩

/-- C2 (the claim is the intended behavior; the code has a bug): a
transient failure on the first write attempt is never retried — instead of
sleeping and retrying, `_create_single_task` raises `NameError` (the
module does not import `asyncio`), whatever the later attempts would have
returned; in particular the planned retries are unreachable on every
exception-first schedule, so "all attempts fail ⇒ returns false" can never
be exercised through retries.  The second conjunct shows the half of the
claim the code does honor: `create_tasks` catches the per-task exception,
so the other tasks of the same employee are still created (here the
`1_week` write fails while the remaining four tasks are created and the
call reports true). -/
theorem claim_C2_retry_is_dead_code :
    (∀ a2 a3, createSingleTaskWritePhase .exn a2 a3 = .nameError) ∧
    (∀ a3, createSingleTaskWritePhase (.ok true) .exn a3 = .ret true) ∧
    ((createTasks ⟨2024, 6, 1⟩ "t" (fun p => p ≠ "1_week") [] 0
        { snils := some "111-222-333", dateEmployment := some "2024-05-30" }).2.2 = true ∧
      ((createTasks ⟨2024, 6, 1⟩ "t" (fun p => p ≠ "1_week") [] 0
        { snils := some "111-222-333", dateEmployment := some "2024-05-30" }).1.map
          (fun t => t.type)) = ["1_month", "3_months", "6_months", "1_year"]) := by
  refine ⟨?_, ?_, ?_, ?_⟩
  · intro a2 a3
    rfl
  · intro a3
    rfl
  · decide
  · decide

/-- Witness for C2 at fully concrete attempt schedules. -/
theorem claim_C2_retry_is_dead_code_witness :
    createSingleTaskWritePhase .exn (.ok true) (.ok true) = .nameError ∧
    createSingleTaskWritePhase .exn .exn .exn = .nameError :=
  ⟨claim_C2_retry_is_dead_code.1 (.ok true) (.ok true),
   claim_C2_retry_is_dead_code.1 .exn .exn⟩

theorem groupBySnils_filter (rows : List SrcRow) :
    groupBySnils rows = groupBySnils (rows.filter fun r => truthyStr r.name) := by
  unfold groupBySnils
  suffices h : ∀ (gs : List (String × List SrcRow)),
      rows.foldl (fun gs r => if truthyStr r.name then addToGroup gs (getStr r.name) r else gs) gs =
      (rows.filter fun r => truthyStr r.name).foldl
        (fun gs r => if truthyStr r.name then addToGroup gs (getStr r.name) r else gs) gs by
    exact h []
  induction rows with
  | nil => intro gs; rfl
  | cons r rest ih =>
    intro gs
    by_cases hr : truthyStr r.name = true
    · simp only [List.filter_cons, hr, List.foldl_cons, if_true]
      exact ih _
    · simp only [List.filter_cons, List.foldl_cons, if_neg hr]
      exact ih gs

/-- C9 (as stated it fails; see `claim_C9_counterexample`): a two-row
group whose first row lacks the name field is dropped whole — the second
row carries both identity and name yet is not aggregated. -/
theorem claim_C9_counterexample :
    truthyStr (({ name := some "111-222-333", fio := some "Ivanov Ivan",
                  company := some "Mavis-Stroy" } : SrcRow).fio) = true ∧
    truthyStr (({ name := some "111-222-333", fio := some "Ivanov Ivan",
                  company := some "Mavis-Stroy" } : SrcRow).name) = true ∧
    aggregate1cUsers
      [{ name := some "111-222-333", company := some "Mavis-Stroy" },
       { name := some "111-222-333", fio := some "Ivanov Ivan",
         company := some "Mavis-Stroy" }] = Except.ok [] := by
  refine ⟨rfl, rfl, ?_⟩
  decide

/-- C9 (amended): (i) rows with a falsy identity contribute nothing to the
aggregation; (ii) an identity whose group's FIRST row has a falsy name is
dropped whole, even when later rows carry both fields; (iii) a non-first
row missing the name is NOT dropped — it still contributes its phones;
(iv) an unparseable hire date does not drop a row, it merely contributes
no date; (v) aggregation is not total: a later row with an empty company
in an otherwise valid group raises a validation error to the caller. -/
theorem claim_C9_aggregation :
    (∀ rows, aggregate1cUsers rows =
      aggregate1cUsers (rows.filter fun r => truthyStr r.name)) ∧
    (∀ (first : SrcRow) (rest : List SrcRow), truthyStr first.fio = false →
      processGroup (first :: rest) = Except.ok Option.none) ∧
    ((aggregate1cUsers
        [{ name := some "111", fio := some "Ivanov", company := some "A" },
         { name := some "111", company := some "A",
           phonePrivate := some "+79111111111" }]).map
      (fun l => l.map fun pr => (pr.1, pr.2.phones)) =
      Except.ok [("111", ["+79111111111"])]) ∧
    ((aggregate1cUsers
        [{ name := some "222", fio := some "Petrov", company := some "A",
           dateEmployment := some "2024-06-01" },
         { name := some "222", fio := some "Petrov", company := some "A",
           dateEmployment := some "garbage",
           phonePrivate := some "+79222222222" }]).map
      (fun l => l.map fun pr => (pr.1, pr.2.phones, pr.2.dateEmployment)) =
      Except.ok [("222", ["+79222222222"], some ⟨2024, 6, 1⟩)]) ∧
    aggregate1cUsers
        [{ name := some "333", fio := some "Sidorov", company := some "A" },
         { name := some "333", fio := some "Sidorov" }] =
      Except.error AggError.validationError := by
  refine ⟨?_, ?_, ?_, ?_, ?_⟩
  · intro rows
    unfold aggregate1cUsers
    rw [groupBySnils_filter]
  · intro first rest h
    have hnone : from1cData first = Option.none := by
      unfold from1cData
      rw [if_pos (Or.inr h)]
    simp only [processGroup, hnone]
  · decide
  · decide
  · decide

/-- Witness for C9 (amended) at a concrete group whose first row has no
name: the whole group is dropped. -/
theorem claim_C9_aggregation_witness :
    processGroup
      [{ name := some "111-222-333", company := some "Mavis-Stroy" },
       { name := some "111-222-333", fio := some "Ivanov Ivan",
         company := some "Mavis-Stroy" }] = Except.ok Option.none :=
  claim_C9_aggregation.2.1
    { name := some "111-222-333", company := some "Mavis-Stroy" }
    [{ name := some "111-222-333", fio := some "Ivanov Ivan",
       company := some "Mavis-Stroy" }] rfl

theorem mergeWrite_id (r : PivotRow) (w : PivotWrite) : (mergeWrite r w).id = r.id := rfl

theorem mergeWrite_snils (r : PivotRow) (w : PivotWrite) :
    (mergeWrite r w).snils = r.snils := rfl

theorem applyPOps_filter_id (ops : List POp) :
    ∀ (st : PivotState) (rid : Nat), rid < st.nextId →
    (applyPOps st ops).rows.filter (fun r => r.id = rid) =
      (st.rows.filter (fun r => r.id = rid)).map (foldUpd rid ops) := by
  induction ops with
  | nil =>
    intro st rid _
    have hid : ∀ r : PivotRow, foldUpd rid [] r = r := fun _ => rfl
    show st.rows.filter (fun r => r.id = rid) =
      (st.rows.filter (fun r => r.id = rid)).map (foldUpd rid [])
    rw [List.map_congr_left (fun r _ => hid r), List.map_id']
  | cons op ops ih =>
    intro st rid hrid
    have hstep : applyPOps st (op :: ops) = applyPOps (applyPOp st op) ops := rfl
    rw [hstep]
    cases op with
    | create w =>
      have hnext : rid < (applyPOp st (POp.create w)).nextId := by
        simp only [applyPOp]
        omega
      rw [ih (applyPOp st (POp.create w)) rid hnext]
      have hfilter : (applyPOp st (POp.create w)).rows.filter (fun r => r.id = rid) =
          st.rows.filter (fun r => r.id = rid) := by
        simp only [applyPOp, List.filter_append]
        have : (newRowFromWrite st.nextId w).id ≠ rid := by
          simp only [newRowFromWrite]
          omega
        simp [this]
      rw [hfilter]
      rfl
    | update rid2 w =>
      have hnext : rid < (applyPOp st (POp.update rid2 w)).nextId := hrid
      rw [ih (applyPOp st (POp.update rid2 w)) rid hnext]
      have hgid : ∀ r : PivotRow,
          (if r.id = rid2 then mergeWrite r w else r).id = r.id := by
        intro r
        split <;> rfl
      have hfilter : (applyPOp st (POp.update rid2 w)).rows.filter (fun r => r.id = rid) =
          (st.rows.filter (fun r => r.id = rid)).map
            (fun r => if r.id = rid2 then mergeWrite r w else r) := by
        simp only [applyPOp]
        rw [List.filter_map]
        congr 1
        apply List.filter_congr
        intro r _
        simp only [Function.comp, hgid]
      rw [hfilter, List.map_map]
      apply List.map_congr_left
      intro r hr
      have hrid2 : r.id = rid := of_decide_eq_true (List.mem_filter.mp hr).2
      simp only [Function.comp, foldUpd, List.foldl_cons]
      congr 1
      by_cases hc : rid2 = rid
      · rw [if_pos hc, if_pos (by rw [hrid2, hc])]
      · rw [if_neg hc, if_neg (by rw [hrid2]; exact fun h => hc h.symm)]

theorem foldUpd_inv (rid : Nat) (WOK : PivotWrite → Prop) (Q : PivotRow → Prop)
    (hpres : ∀ w acc, WOK w → Q acc → Q (mergeWrite acc w)) :
    ∀ (ops : List POp) (r : PivotRow),
    (∀ w, POp.update rid w ∈ ops → WOK w) → Q r → Q (foldUpd rid ops r) := by
  intro ops
  induction ops with
  | nil => intro r _ hq; exact hq
  | cons op ops ih =>
    intro r hok hq
    cases op with
    | create w =>
      exact ih r (fun w2 h2 => hok w2 (List.mem_cons_of_mem _ h2)) hq
    | update rid2 w =>
      show Q (foldUpd rid ops (if rid2 = rid then mergeWrite r w else r))
      by_cases hc : rid2 = rid
      · rw [if_pos hc]
        refine ih _ (fun w2 h2 => hok w2 (List.mem_cons_of_mem _ h2)) ?_
        exact hpres w r (hok w (hc ▸ List.mem_cons_self _ _)) hq
      · rw [if_neg hc]
        exact ih r (fun w2 h2 => hok w2 (List.mem_cons_of_mem _ h2)) hq

theorem foldUpd_est (rid : Nat) (WOK : PivotWrite → Prop) (Q P : PivotRow → Prop)
    (hPpres : ∀ w acc, WOK w → P acc → P (mergeWrite acc w))
    (hPest : ∀ w acc, WOK w → Q acc → P (mergeWrite acc w)) :
    ∀ (ops : List POp) (r : PivotRow),
    (∀ w, POp.update rid w ∈ ops → WOK w) → Q r →
    (∃ w, POp.update rid w ∈ ops) → P (foldUpd rid ops r) := by
  intro ops
  induction ops with
  | nil =>
    intro r _ _ hex
    obtain ⟨w, hw⟩ := hex
    cases hw
  | cons op ops ih =>
    intro r hok hq hex
    cases op with
    | create w2 =>
      refine ih r (fun w3 h3 => hok w3 (List.mem_cons_of_mem _ h3)) hq ?_
      obtain ⟨w, hw⟩ := hex
      cases List.mem_cons.mp hw with
      | inl h => cases h
      | inr h => exact ⟨w, h⟩
    | update rid2 w2 =>
      show P (foldUpd rid ops (if rid2 = rid then mergeWrite r w2 else r))
      by_cases hc : rid2 = rid
      · rw [if_pos hc]
        have hw2 : WOK w2 := hok w2 (hc ▸ List.mem_cons_self _ _)
        exact foldUpd_inv rid WOK P hPpres ops (mergeWrite r w2)
          (fun w3 h3 => hok w3 (List.mem_cons_of_mem _ h3)) (hPest w2 r hw2 hq)
      · rw [if_neg hc]
        refine ih r (fun w3 h3 => hok w3 (List.mem_cons_of_mem _ h3)) hq ?_
        obtain ⟨w, hw⟩ := hex
        cases List.mem_cons.mp hw with
        | inl h =>
          exfalso
          injection h with h1 _
          exact hc h1.symm
        | inr h => exact ⟨w, h⟩

theorem foldUpd_id (rid : Nat) :
    ∀ (ops : List POp) (r : PivotRow),
    (∀ w, POp.update rid w ∉ ops) → foldUpd rid ops r = r := by
  intro ops
  induction ops with
  | nil => intro r _; rfl
  | cons op ops ih =>
    intro r hno
    cases op with
    | create w =>
      exact ih r (fun w2 h2 => hno w2 (List.mem_cons_of_mem _ h2))
    | update rid2 w =>
      show foldUpd rid ops (if rid2 = rid then mergeWrite r w else r) = r
      have hc : rid2 ≠ rid := by
        intro hc
        exact hno w (by rw [hc]; exact List.mem_cons_self _ _)
      rw [if_neg hc]
      exact ih r (fun w2 h2 => hno w2 (List.mem_cons_of_mem _ h2))

theorem setKey_mem {α : Type} :
    ∀ (d : List (String × α)) (k : String) (v : α) (x : String × α),
    x ∈ setKey d k v → x = (k, v) ∨ x ∈ d := by
  intro d
  induction d with
  | nil =>
    intro k v x hx
    simp only [setKey] at hx
    simp at hx
    exact Or.inl hx
  | cons p t ih =>
    intro k v x hx
    simp only [setKey] at hx
    split at hx
    · cases List.mem_cons.mp hx with
      | inl h =>
        rename_i heq
        exact Or.inl (by rw [h, heq])
      | inr h => exact Or.inr (List.mem_cons_of_mem _ h)
    · cases List.mem_cons.mp hx with
      | inl h => exact Or.inr (h ▸ List.mem_cons_self _ _)
      | inr h =>
        cases ih k v x h with
        | inl h2 => exact Or.inl h2
        | inr h2 => exact Or.inr (List.mem_cons_of_mem _ h2)

theorem truthy_name_eq (v : Option String) (h : truthyStr v = true) :
    v = some (getStr v) := by
  cases v with
  | none => cases h
  | some s => rfl

theorem pivotDict_foldl_mem (rows : List PivotRow) :
    ∀ (acc : List (String × PivotRow)) (x : String × PivotRow),
    x ∈ rows.foldl
      (fun acc r => if truthyStr r.name then setKey acc (getStr r.name) r else acc) acc →
    x ∈ acc ∨ (x.2 ∈ rows ∧ x.2.name = some x.1) := by
  induction rows with
  | nil => intro acc x hx; exact Or.inl hx
  | cons r rest ih =>
    intro acc x hx
    have hx2 := ih (if truthyStr r.name then setKey acc (getStr r.name) r else acc) x hx
    cases hx2 with
    | inl h =>
      by_cases ht : truthyStr r.name = true
      · rw [if_pos ht] at h
        cases setKey_mem acc (getStr r.name) r x h with
        | inl h2 =>
          refine Or.inr ⟨?_, ?_⟩
          · rw [h2]; exact List.mem_cons_self _ _
          · rw [h2]
            show r.name = some (getStr r.name)
            exact truthy_name_eq r.name ht
        | inr h2 => exact Or.inl h2
      · rw [if_neg ht] at h
        exact Or.inl h
    | inr h => exact Or.inr ⟨List.mem_cons_of_mem _ h.1, h.2⟩

theorem pivotDict_mem (rows : List PivotRow) (x : String × PivotRow)
    (hx : x ∈ pivotDict rows) : x.2 ∈ rows ∧ x.2.name = some x.1 := by
  cases pivotDict_foldl_mem rows [] x hx with
  | inl h => cases h
  | inr h => exact h

theorem lookupD_mem {α : Type} (d : List (String × α)) (k : String) (v : α)
    (h : lookupD d k = some v) : (k, v) ∈ d := by
  unfold lookupD at h
  cases hf : d.find? (fun pr => pr.1 = k) with
  | none => rw [hf] at h; cases h
  | some pr =>
    rw [hf] at h
    have hmem := List.mem_of_find?_eq_some hf
    have hkey0 := List.find?_some hf
    have hkey : pr.1 = k := by simpa using hkey0
    have hv : pr.2 = v := by injection h
    have : pr = (k, v) := by
      obtain ⟨a, b⟩ := pr
      simp only at hkey hv
      rw [hkey, hv]
    rw [← this]
    exact hmem

theorem foldl_append_mem {α β : Type} (f : β → List α) (l : List β) :
    ∀ (init : List α) (x : α),
    (x ∈ l.foldl (fun acc b => acc ++ f b) init ↔ x ∈ init ∨ ∃ b ∈ l, x ∈ f b) := by
  induction l with
  | nil =>
    intro init x
    simp
  | cons b rest ih =>
    intro init x
    rw [List.foldl_cons, ih (init ++ f b) x]
    rw [List.mem_append]
    constructor
    · rintro ((h | h) | ⟨b2, hb2, hx⟩)
      · exact Or.inl h
      · exact Or.inr ⟨b, List.mem_cons_self _ _, h⟩
      · exact Or.inr ⟨b2, List.mem_cons_of_mem _ hb2, hx⟩
    · rintro (h | ⟨b2, hb2, hx⟩)
      · exact Or.inl (Or.inl h)
      · cases List.mem_cons.mp hb2 with
        | inl h2 => exact Or.inl (Or.inr (h2 ▸ hx))
        | inr h2 => exact Or.inr ⟨b2, h2, hx⟩

theorem syncPivotOps_update_mem (src : List (String × SrcUser))
    (snap : List (String × PivotRow)) (rid : Nat) (w : PivotWrite)
    (h : POp.update rid w ∈ syncPivotOps src snap) :
    (∃ pr ∈ src, POp.update rid w ∈ pivotStepOps snap pr.1 pr.2) ∨
    (∃ pr, pr ∈ snap ∧ pr.1 ∉ src.map Prod.fst ∧ pr.2.isArchived.getD false = false ∧
      rid = pr.2.id ∧ w = archivedData pr.2) := by
  unfold syncPivotOps at h
  rw [List.mem_append] at h
  cases h with
  | inl h1 =>
    have := (foldl_append_mem (fun pr => pivotStepOps snap pr.1 pr.2) src [] _).mp h1
    cases this with
    | inl h2 => cases h2
    | inr h2 => exact Or.inl h2
  | inr h2 =>
    rw [List.mem_map] at h2
    obtain ⟨pr, hprf, heq⟩ := h2
    rw [List.mem_filter] at hprf
    have hcond := of_decide_eq_true hprf.2
    injection heq with h1 h2
    refine Or.inr ⟨pr, hprf.1, hcond.1, ?_, h1.symm, h2.symm⟩
    have := hcond.2
    revert this
    cases pr.2.isArchived.getD false <;> simp

theorem pivotStepOps_update_char (snap : List (String × PivotRow)) (s : String)
    (u : SrcUser) (rid : Nat) (w : PivotWrite)
    (h : POp.update rid w ∈ pivotStepOps snap s u) :
    ∃ row, lookupD snap s = some row ∧ rid = row.id ∧ w.isArchived = some false ∧
      (truthyStr row.dateEmployment = true → w.dateEmployment = row.dateEmployment) ∧
      (truthyStr row.dateEmployment = false →
        w.dateEmployment = u.dateEmployment.map formatDate) := by
  unfold pivotStepOps at h
  cases hl : lookupD snap s with
  | none =>
    rw [hl] at h
    rw [List.mem_singleton] at h
    cases h
  | some row =>
    rw [hl] at h
    dsimp only at h
    refine ⟨row, rfl, ?_⟩
    by_cases ht : truthyStr row.dateEmployment = true
    · rw [if_pos ht] at h
      split at h
      · rw [List.mem_singleton] at h
        injection h with h1 h2
        subst h2
        refine ⟨h1, rfl, fun _ => rfl, fun hf => ?_⟩
        rw [ht] at hf
        cases hf
      · cases h
    · have ht' : truthyStr row.dateEmployment = false := by
        revert ht
        cases truthyStr row.dateEmployment <;> simp
      rw [if_neg ht] at h
      cases hu : u.dateEmployment with
      | some d =>
        rw [hu] at h
        split at h
        · rw [List.mem_singleton] at h
          injection h with h1 h2
          subst h2
          refine ⟨h1, rfl, fun htt => ?_, fun _ => rfl⟩
          rw [ht'] at htt
          cases htt
        · cases h
      | none =>
        rw [hu] at h
        split at h
        · rw [List.mem_singleton] at h
          injection h with h1 h2
          subst h2
          refine ⟨h1, rfl, fun htt => ?_, fun _ => rfl⟩
          rw [ht'] at htt
          cases htt
        · cases h

theorem pivotStepOps_self_adopt (snap : List (String × PivotRow)) (s : String)
    (u : SrcUser) (row : PivotRow) (d : PDate)
    (hl : lookupD snap s = some row)
    (ht : truthyStr row.dateEmployment = false)
    (hu : u.dateEmployment = some d) :
    POp.update row.id
      { toPivotTableFormat u with
          dateEmployment := some (formatDate d), isArchived := some false } ∈
      pivotStepOps snap s u := by
  simp [pivotStepOps, hl, ht, hu]

theorem syncPivotOps_archive_mem (src : List (String × SrcUser))
    (snap : List (String × PivotRow)) (pr : String × PivotRow)
    (hmem : pr ∈ snap) (hnot : pr.1 ∉ src.map Prod.fst)
    (harch : pr.2.isArchived.getD false = false) :
    POp.update pr.2.id (archivedData pr.2) ∈ syncPivotOps src snap := by
  unfold syncPivotOps
  rw [List.mem_append]
  right
  rw [List.mem_map]
  refine ⟨pr, ?_, rfl⟩
  rw [List.mem_filter]
  refine ⟨hmem, decide_eq_true ⟨hnot, ?_⟩⟩
  rw [harch]
  rfl

theorem filter_id_all_eq (rows : List PivotRow) (row : PivotRow)
    (hmem : row ∈ rows) (hnodup : (rows.map PivotRow.id).Nodup) :
    ∀ r ∈ rows.filter (fun r => r.id = row.id), r = row := by
  intro r hr
  rw [List.mem_filter] at hr
  exact List.inj_on_of_nodup_map hnodup hr.1 hmem (of_decide_eq_true hr.2)

/-- C3: pivot hire date is sticky — (i) for every identity whose pivot row
holds a non-null (non-empty) `Date_employment`, one `sync_pivot` pass over
any source data leaves that row's stored hire date unchanged (whether the
identity is updated, reactivated from the archive, archived, or absent
from source); (ii) only when the stored hire date is null is the source's
earliest hire date adopted (written in ISO format). -/
theorem claim_C3_hire_date_sticky :
    (∀ (src : List (String × SrcUser)) (st : PivotState) (s : String)
        (row : PivotRow) (ds : String),
      (st.rows.map PivotRow.id).Nodup →
      (∀ r ∈ st.rows, r.id < st.nextId) →
      lookupD (pivotDict st.rows) s = some row →
      row.dateEmployment = some ds → ds ≠ "" →
      ∀ r2 ∈ (syncPivot src st).rows, r2.id = row.id → r2.dateEmployment = some ds) ∧
    (∀ (src : List (String × SrcUser)) (st : PivotState) (s : String)
        (row : PivotRow) (u : SrcUser) (d : PDate),
      (st.rows.map PivotRow.id).Nodup →
      (∀ r ∈ st.rows, r.id < st.nextId) →
      (src.map Prod.fst).Nodup →
      (s, u) ∈ src →
      lookupD (pivotDict st.rows) s = some row →
      row.dateEmployment = Option.none →
      u.dateEmployment = some d →
      ∀ r2 ∈ (syncPivot src st).rows, r2.id = row.id →
        r2.dateEmployment = some (formatDate d)) := by
  constructor
  · intro src st s row ds hnodup hfresh hlook hdate hds r2 hr2 hid
    have hrowP := pivotDict_mem st.rows (s, row) (lookupD_mem _ _ _ hlook)
    have hridlt : row.id < st.nextId := hfresh row hrowP.1
    have hr2f : r2 ∈ (syncPivot src st).rows.filter (fun r => r.id = row.id) :=
      List.mem_filter.mpr ⟨hr2, decide_eq_true hid⟩
    unfold syncPivot at hr2f
    rw [applyPOps_filter_id _ st row.id hridlt] at hr2f
    obtain ⟨r0, hr0, heq⟩ := List.mem_map.mp hr2f
    have hr0row : r0 = row := filter_id_all_eq st.rows row hrowP.1 hnodup r0 hr0
    rw [← heq, hr0row]
    refine foldUpd_inv row.id (fun w => w.dateEmployment = some ds)
      (fun r => r.dateEmployment = some ds)
      (fun w acc hw _ => by
        show (mergeWrite acc w).dateEmployment = some ds
        rw [show (mergeWrite acc w).dateEmployment = w.dateEmployment from rfl, hw])
      _ row ?_ hdate
    intro w hw
    rcases syncPivotOps_update_mem src (pivotDict st.rows) row.id w hw with
      ⟨pr, _, hstep⟩ | ⟨pr, hprsnap, _, _, hrid, hwad⟩
    · obtain ⟨row2, hl2, hrid2, _, hdT, _⟩ := pivotStepOps_update_char _ _ _ _ _ hstep
      have hrow2 := pivotDict_mem st.rows (pr.1, row2) (lookupD_mem _ _ _ hl2)
      have hr2r : row2 = row :=
        List.inj_on_of_nodup_map hnodup hrow2.1 hrowP.1 hrid2.symm
      subst hr2r
      have htr : truthyStr row2.dateEmployment = true := by
        rw [hdate]
        simp [truthyStr, hds]
      rw [hdT htr, hdate]
    · have hprmem := pivotDict_mem st.rows pr hprsnap
      have hpr2 : pr.2 = row :=
        List.inj_on_of_nodup_map hnodup hprmem.1 hrowP.1 hrid.symm
      rw [hwad]
      show (archivedData pr.2).dateEmployment = some ds
      rw [show (archivedData pr.2).dateEmployment = pr.2.dateEmployment from rfl, hpr2, hdate]
  · intro src st s row u d hnodup hfresh hsrcnodup hsrc hlook hdate hud r2 hr2 hid
    have hrowP := pivotDict_mem st.rows (s, row) (lookupD_mem _ _ _ hlook)
    have hridlt : row.id < st.nextId := hfresh row hrowP.1
    have hr2f : r2 ∈ (syncPivot src st).rows.filter (fun r => r.id = row.id) :=
      List.mem_filter.mpr ⟨hr2, decide_eq_true hid⟩
    unfold syncPivot at hr2f
    rw [applyPOps_filter_id _ st row.id hridlt] at hr2f
    obtain ⟨r0, hr0, heq⟩ := List.mem_map.mp hr2f
    have hr0row : r0 = row := filter_id_all_eq st.rows row hrowP.1 hnodup r0 hr0
    rw [← heq, hr0row]
    have htf : truthyStr row.dateEmployment = false := by rw [hdate]; rfl
    refine foldUpd_est row.id (fun w => w.dateEmployment = some (formatDate d))
      (fun _ => True) (fun r => r.dateEmployment = some (formatDate d))
      (fun w acc hw _ => by
        show (mergeWrite acc w).dateEmployment = some (formatDate d)
        rw [show (mergeWrite acc w).dateEmployment = w.dateEmployment from rfl, hw])
      (fun w acc hw _ => by
        show (mergeWrite acc w).dateEmployment = some (formatDate d)
        rw [show (mergeWrite acc w).dateEmployment = w.dateEmployment from rfl, hw])
      _ row ?_ trivial ?_
    · intro w hw
      rcases syncPivotOps_update_mem src (pivotDict st.rows) row.id w hw with
        ⟨pr, hprsrc, hstep⟩ | ⟨pr, hprsnap, hnotin, _, hrid, _⟩
      · obtain ⟨row2, hl2, hrid2, _, _, hdF⟩ := pivotStepOps_update_char _ _ _ _ _ hstep
        have hrow2 := pivotDict_mem st.rows (pr.1, row2) (lookupD_mem _ _ _ hl2)
        have hr2r : row2 = row :=
          List.inj_on_of_nodup_map hnodup hrow2.1 hrowP.1 hrid2.symm
        subst hr2r
        have hkey : pr.1 = s := by
          have h1 := hrow2.2
          rw [hrowP.2] at h1
          injection h1 with hv
          exact hv.symm
        have hpru : pr = (s, u) := by
          refine List.inj_on_of_nodup_map hsrcnodup hprsrc hsrc ?_
          rw [hkey]
        rw [hdF htf, hpru]
        show u.dateEmployment.map formatDate = some (formatDate d)
        rw [hud]
        rfl
      · exfalso
        have hprmem := pivotDict_mem st.rows pr hprsnap
        have hpr2 : pr.2 = row :=
          List.inj_on_of_nodup_map hnodup hprmem.1 hrowP.1 hrid.symm
        have hkey : pr.1 = s := by
          have h1 := hprmem.2
          rw [hpr2, hrowP.2] at h1
          injection h1 with hv
          exact hv.symm
        apply hnotin
        rw [hkey]
        exact List.mem_map.mpr ⟨(s, u), hsrc, rfl⟩
    · refine ⟨{ toPivotTableFormat u with
          dateEmployment := some (formatDate d), isArchived := some false }, ?_⟩
      unfold syncPivotOps
      rw [List.mem_append]
      left
      rw [foldl_append_mem]
      exact Or.inr ⟨(s, u), hsrc, pivotStepOps_self_adopt _ _ _ _ _ hlook htf hud⟩

/-- Witness for C3: re-syncing the identity with source hire date
2023-05-01 leaves the stored 2024-01-10 in place. -/
theorem claim_C3_hire_date_sticky_witness :
    ((syncPivot c3Src c3St).rows.headD c3Row).dateEmployment = some "2024-01-10" :=
  claim_C3_hire_date_sticky.1 c3Src c3St "111-222-333" c3Row "2024-01-10"
    (by decide) (by decide) (by decide) rfl (by decide)
    ((syncPivot c3Src c3St).rows.headD c3Row) (by decide) (by decide)

/-- C4: the archive phase of one `sync_pivot` pass — (0) the archive write
keeps identity and hire date, sets `Is_archived`, and nulls every other
column; (i) every snapshot identity absent from the source and not already
archived ends the pass archived in exactly that shape; (ii) an identity
absent from source but already archived is left untouched; (iii) an
identity present in the source is never archived by the pass. -/
theorem claim_C4_archiving :
    (∀ row : PivotRow, mergeWrite row (archivedData row) =
      { id := row.id, name := row.name, dateEmployment := row.dateEmployment,
        isArchived := some true, snils := row.snils }) ∧
    (∀ (src : List (String × SrcUser)) (st : PivotState) (s : String) (row : PivotRow),
      (st.rows.map PivotRow.id).Nodup →
      (∀ r ∈ st.rows, r.id < st.nextId) →
      lookupD (pivotDict st.rows) s = some row →
      s ∉ src.map Prod.fst →
      row.isArchived.getD false = false →
      ∀ r2 ∈ (syncPivot src st).rows, r2.id = row.id →
        r2 = mergeWrite row (archivedData row)) ∧
    (∀ (src : List (String × SrcUser)) (st : PivotState) (s : String) (row : PivotRow),
      (st.rows.map PivotRow.id).Nodup →
      (∀ r ∈ st.rows, r.id < st.nextId) →
      lookupD (pivotDict st.rows) s = some row →
      s ∉ src.map Prod.fst →
      row.isArchived.getD false = true →
      ∀ r2 ∈ (syncPivot src st).rows, r2.id = row.id → r2 = row) ∧
    (∀ (src : List (String × SrcUser)) (st : PivotState) (s : String) (row : PivotRow),
      (st.rows.map PivotRow.id).Nodup →
      (∀ r ∈ st.rows, r.id < st.nextId) →
      lookupD (pivotDict st.rows) s = some row →
      s ∈ src.map Prod.fst →
      row.isArchived ≠ some true →
      ∀ r2 ∈ (syncPivot src st).rows, r2.id = row.id → r2.isArchived ≠ some true) := by
  refine ⟨fun row => rfl, ?_, ?_, ?_⟩
  · intro src st s row hnodup hfresh hlook hnot harch r2 hr2 hid
    have hrowP := pivotDict_mem st.rows (s, row) (lookupD_mem _ _ _ hlook)
    have hridlt : row.id < st.nextId := hfresh row hrowP.1
    have hr2f : r2 ∈ (syncPivot src st).rows.filter (fun r => r.id = row.id) :=
      List.mem_filter.mpr ⟨hr2, decide_eq_true hid⟩
    unfold syncPivot at hr2f
    rw [applyPOps_filter_id _ st row.id hridlt] at hr2f
    obtain ⟨r0, hr0, heq⟩ := List.mem_map.mp hr2f
    have hr0row : r0 = row := filter_id_all_eq st.rows row hrowP.1 hnodup r0 hr0
    rw [← heq, hr0row]
    refine foldUpd_est row.id (fun w => w = archivedData row)
      (fun acc => acc.id = row.id ∧ acc.snils = row.snils)
      (fun acc => acc = mergeWrite row (archivedData row))
      (fun w acc hw hp => by
        show mergeWrite acc w = mergeWrite row (archivedData row)
        rw [hp, hw]
        rfl)
      (fun w acc hw hq => by
        rw [hw]
        show mergeWrite acc (archivedData row) = mergeWrite row (archivedData row)
        unfold mergeWrite
        rw [hq.1, hq.2]
        rfl)
      _ row ?_ ⟨rfl, rfl⟩ ?_
    · intro w hw
      rcases syncPivotOps_update_mem src (pivotDict st.rows) row.id w hw with
        ⟨pr, hprsrc, hstep⟩ | ⟨pr, hprsnap, _, _, hrid, hwad⟩
      · exfalso
        obtain ⟨row2, hl2, hrid2, _, _, _⟩ := pivotStepOps_update_char _ _ _ _ _ hstep
        have hrow2 := pivotDict_mem st.rows (pr.1, row2) (lookupD_mem _ _ _ hl2)
        have hr2r : row2 = row :=
          List.inj_on_of_nodup_map hnodup hrow2.1 hrowP.1 hrid2.symm
        have hkey : pr.1 = s := by
          have h1 := hrow2.2
          rw [hr2r, hrowP.2] at h1
          injection h1 with hv
          exact hv.symm
        apply hnot
        rw [← hkey]
        exact List.mem_map.mpr ⟨pr, hprsrc, rfl⟩
      · have hprmem := pivotDict_mem st.rows pr hprsnap
        have hpr2 : pr.2 = row :=
          List.inj_on_of_nodup_map hnodup hprmem.1 hrowP.1 hrid.symm
        rw [hwad, hpr2]
    · refine ⟨archivedData row, ?_⟩
      have := syncPivotOps_archive_mem src (pivotDict st.rows) (s, row)
        (lookupD_mem _ _ _ hlook) hnot harch
      exact this
  · intro src st s row hnodup hfresh hlook hnot harch r2 hr2 hid
    have hrowP := pivotDict_mem st.rows (s, row) (lookupD_mem _ _ _ hlook)
    have hridlt : row.id < st.nextId := hfresh row hrowP.1
    have hr2f : r2 ∈ (syncPivot src st).rows.filter (fun r => r.id = row.id) :=
      List.mem_filter.mpr ⟨hr2, decide_eq_true hid⟩
    unfold syncPivot at hr2f
    rw [applyPOps_filter_id _ st row.id hridlt] at hr2f
    obtain ⟨r0, hr0, heq⟩ := List.mem_map.mp hr2f
    have hr0row : r0 = row := filter_id_all_eq st.rows row hrowP.1 hnodup r0 hr0
    rw [← heq, hr0row]
    apply foldUpd_id
    intro w hw
    rcases syncPivotOps_update_mem src (pivotDict st.rows) row.id w hw with
      ⟨pr, hprsrc, hstep⟩ | ⟨pr, hprsnap, _, harch2, hrid, _⟩
    · obtain ⟨row2, hl2, hrid2, _, _, _⟩ := pivotStepOps_update_char _ _ _ _ _ hstep
      have hrow2 := pivotDict_mem st.rows (pr.1, row2) (lookupD_mem _ _ _ hl2)
      have hr2r : row2 = row :=
        List.inj_on_of_nodup_map hnodup hrow2.1 hrowP.1 hrid2.symm
      have hkey : pr.1 = s := by
        have h1 := hrow2.2
        rw [hr2r, hrowP.2] at h1
        injection h1 with hv
        exact hv.symm
      apply hnot
      rw [← hkey]
      exact List.mem_map.mpr ⟨pr, hprsrc, rfl⟩
    · have hprmem := pivotDict_mem st.rows pr hprsnap
      have hpr2 : pr.2 = row :=
        List.inj_on_of_nodup_map hnodup hprmem.1 hrowP.1 hrid.symm
      rw [hpr2] at harch2
      rw [harch] at harch2
      cases harch2
  · intro src st s row hnodup hfresh hlook hin harch r2 hr2 hid
    have hrowP := pivotDict_mem st.rows (s, row) (lookupD_mem _ _ _ hlook)
    have hridlt : row.id < st.nextId := hfresh row hrowP.1
    have hr2f : r2 ∈ (syncPivot src st).rows.filter (fun r => r.id = row.id) :=
      List.mem_filter.mpr ⟨hr2, decide_eq_true hid⟩
    unfold syncPivot at hr2f
    rw [applyPOps_filter_id _ st row.id hridlt] at hr2f
    obtain ⟨r0, hr0, heq⟩ := List.mem_map.mp hr2f
    have hr0row : r0 = row := filter_id_all_eq st.rows row hrowP.1 hnodup r0 hr0
    rw [← heq, hr0row]
    refine foldUpd_inv row.id (fun w => w.isArchived = some false)
      (fun acc => acc.isArchived ≠ some true)
      (fun w acc hw _ => by
        show (mergeWrite acc w).isArchived ≠ some true
        have hmw : (mergeWrite acc w).isArchived = some false := by
          show (match w.isArchived with
                | some b => some b
                | Option.none => acc.isArchived) = some false
          rw [hw]
        rw [hmw]
        intro hc
        injection hc with hb
        cases hb)
      _ row ?_ harch
    intro w hw
    rcases syncPivotOps_update_mem src (pivotDict st.rows) row.id w hw with
      ⟨pr, _, hstep⟩ | ⟨pr, hprsnap, hnotin, _, hrid, _⟩
    · obtain ⟨row2, _, _, hia, _, _⟩ := pivotStepOps_update_char _ _ _ _ _ hstep
      exact hia
    · exfalso
      have hprmem := pivotDict_mem st.rows pr hprsnap
      have hpr2 : pr.2 = row :=
        List.inj_on_of_nodup_map hnodup hprmem.1 hrowP.1 hrid.symm
      have hkey : pr.1 = s := by
        have h1 := hprmem.2
        rw [hpr2, hrowP.2] at h1
        injection h1 with hv
        exact hv.symm
      apply hnotin
      rw [hkey]
      exact hin

/-- Witness for C4: with an empty source pull, the single active pivot row
is archived into the blanked shape. -/
theorem claim_C4_archiving_witness :
    (syncPivot [] c4St).rows.headD c4Row = mergeWrite c4Row (archivedData c4Row) :=
  claim_C4_archiving.2.1 [] c4St "444-555-666" c4Row (by decide) (by decide)
    (by decide) (by decide) rfl
    ((syncPivot [] c4St).rows.headD c4Row) (by decide) (by decide)

theorem logStep_fold {β : Type} (f : AuthState × List AOp → β → AuthState × List AOp)
    (hstep : ∀ acc b, ∃ newOps, f acc b = (applyAOps acc.1 newOps, acc.2 ++ newOps)) :
    ∀ (l : List β) (acc : AuthState × List AOp),
      ∃ newOps, l.foldl f acc = (applyAOps acc.1 newOps, acc.2 ++ newOps) := by
  intro l
  induction l with
  | nil =>
    intro acc
    exact ⟨[], by simp [applyAOps]⟩
  | cons b rest ih =>
    intro acc
    obtain ⟨n1, he1⟩ := hstep acc b
    obtain ⟨n2, he2⟩ := ih (f acc b)
    refine ⟨n1 ++ n2, ?_⟩
    rw [List.foldl_cons, he2, he1]
    show (applyAOps (applyAOps acc.1 n1) n2, (acc.2 ++ n1) ++ n2) = _
    rw [show applyAOps (applyAOps acc.1 n1) n2 = applyAOps acc.1 (n1 ++ n2) from
          (List.foldl_append _ _ _ _).symm,
        List.append_assoc]

theorem foldl_log_mem {β : Type} (f : AuthState × List AOp → β → AuthState × List AOp)
    (P : β → AOp → Prop)
    (hstep : ∀ acc b op, op ∈ (f acc b).2 → op ∈ acc.2 ∨ P b op) :
    ∀ (l : List β) (acc : AuthState × List AOp) (op : AOp),
      op ∈ (l.foldl f acc).2 → op ∈ acc.2 ∨ ∃ b ∈ l, P b op := by
  intro l
  induction l with
  | nil =>
    intro acc op h
    exact Or.inl h
  | cons b rest ih =>
    intro acc op h
    rcases ih (f acc b) op h with h2 | ⟨b2, hb2, hp⟩
    · rcases hstep acc b op h2 with h3 | hp
      · exact Or.inl h3
      · exact Or.inr ⟨b, List.mem_cons_self _ _, hp⟩
    · exact Or.inr ⟨b2, List.mem_cons_of_mem _ hb2, hp⟩

theorem createAuthRows_step (s f ro : String) (ps : List String)
    (acc : AuthState × List AOp) :
    ∃ newOps, createAuthRows s f ro ps acc = (applyAOps acc.1 newOps, acc.2 ++ newOps) := by
  refine logStep_fold _ ?_ ps acc
  intro acc2 phone
  exact ⟨[AOp.create (mkAuthRow s f phone ro acc2.1.nextId)], rfl⟩

theorem updateAuthRows_step (f ro : String) (records : List AuthRow)
    (acc : AuthState × List AOp) :
    ∃ newOps, updateAuthRows f ro records acc = (applyAOps acc.1 newOps, acc.2 ++ newOps) := by
  refine logStep_fold _ ?_ records acc
  intro acc2 r
  exact ⟨[AOp.update r.id f ro], rfl⟩

theorem deleteAuthRows_step (records : List AuthRow) (acc : AuthState × List AOp) :
    ∃ newOps, deleteAuthRows records acc = (applyAOps acc.1 newOps, acc.2 ++ newOps) := by
  refine logStep_fold _ ?_ records acc
  intro acc2 r
  exact ⟨[AOp.delete r.id], rfl⟩

theorem createAuthRows_mem (s f ro : String) (ps : List String)
    (acc : AuthState × List AOp) (op : AOp)
    (h : op ∈ (createAuthRows s f ro ps acc).2) :
    op ∈ acc.2 ∨ ∃ p ∈ ps, ∃ i, op = AOp.create (mkAuthRow s f p ro i) := by
  refine foldl_log_mem _ (fun p op => ∃ i, op = AOp.create (mkAuthRow s f p ro i)) ?_ ps acc op h
  intro acc2 phone op2 h2
  rcases List.mem_append.mp h2 with h3 | h3
  · exact Or.inl h3
  · rw [List.mem_singleton] at h3
    exact Or.inr ⟨acc2.1.nextId, h3⟩

theorem updateAuthRows_mem (f ro : String) (records : List AuthRow)
    (acc : AuthState × List AOp) (op : AOp)
    (h : op ∈ (updateAuthRows f ro records acc).2) :
    op ∈ acc.2 ∨ ∃ r ∈ records, op = AOp.update r.id f ro := by
  refine foldl_log_mem _ (fun r op => op = AOp.update r.id f ro) ?_ records acc op h
  intro acc2 r op2 h2
  rcases List.mem_append.mp h2 with h3 | h3
  · exact Or.inl h3
  · rw [List.mem_singleton] at h3
    exact Or.inr h3

theorem deleteAuthRows_mem (records : List AuthRow)
    (acc : AuthState × List AOp) (op : AOp)
    (h : op ∈ (deleteAuthRows records acc).2) :
    op ∈ acc.2 ∨ ∃ r ∈ records, op = AOp.delete r.id := by
  refine foldl_log_mem _ (fun r op => op = AOp.delete r.id) ?_ records acc op h
  intro acc2 r op2 h2
  rcases List.mem_append.mp h2 with h3 | h3
  · exact Or.inl h3
  · rw [List.mem_singleton] at h3
    exact Or.inr h3

theorem syncAuthUserStep_decomp (today : PDate) (snap : List (String × List AuthRow))
    (s : String) (pu : PivotRow) (st : AuthState) :
    ∃ ops, syncAuthUserStep today snap s pu st = (applyAOps st ops, ops) := by
  unfold syncAuthUserStep
  by_cases hm : mobilePhonesOfVal pu.phones = []
  · rw [if_pos hm]
    exact ⟨[], rfl⟩
  · rw [if_neg hm]
    cases hl : lookupD snap s with
    | none =>
      obtain ⟨n, he⟩ := createAuthRows_step s (getStr pu.fio)
        (roleFor today pu.dateEmployment) (mobilePhonesOfVal pu.phones) (st, [])
      exact ⟨n, by rw [he]; rfl⟩
    | some recs =>
      dsimp only
      obtain ⟨n1, he1⟩ := updateAuthRows_step (getStr pu.fio)
        (roleFor today pu.dateEmployment)
        (recs.filter (fun r =>
          !(r.fio = some (getStr pu.fio) && r.role = some (roleFor today pu.dateEmployment))))
        (st, [])
      obtain ⟨n2, he2⟩ := createAuthRows_step s (getStr pu.fio)
        (roleFor today pu.dateEmployment)
        ((mobilePhonesOfVal pu.phones).filter
          (fun p => p ≠ "" && p ∉ recs.map (fun r => getStr r.phone)))
        (updateAuthRows (getStr pu.fio) (roleFor today pu.dateEmployment)
          (recs.filter (fun r =>
            !(r.fio = some (getStr pu.fio) && r.role = some (roleFor today pu.dateEmployment))))
          (st, []))
      refine ⟨n1 ++ n2, ?_⟩
      rw [he2, he1]
      show (applyAOps (applyAOps st n1) n2, ([] ++ n1) ++ n2) = _
      rw [show applyAOps (applyAOps st n1) n2 = applyAOps st (n1 ++ n2) from
            (List.foldl_append _ _ _ _).symm]
      simp only [List.nil_append]

theorem syncAuthUserStep_ops (today : PDate) (snap : List (String × List AuthRow))
    (s : String) (pu : PivotRow) (st : AuthState) (op : AOp)
    (h : op ∈ (syncAuthUserStep today snap s pu st).2) :
    (∃ p i, p ∈ mobilePhonesOfVal pu.phones ∧
      op = AOp.create (mkAuthRow s (getStr pu.fio) p (roleFor today pu.dateEmployment) i)) ∨
    (∃ recs r0, lookupD snap s = some recs ∧ r0 ∈ recs ∧
      op = AOp.update r0.id (getStr pu.fio) (roleFor today pu.dateEmployment)) := by
  unfold syncAuthUserStep at h
  by_cases hm : mobilePhonesOfVal pu.phones = []
  · rw [if_pos hm] at h
    cases h
  · rw [if_neg hm] at h
    cases hl : lookupD snap s with
    | none =>
      rw [hl] at h
      rcases createAuthRows_mem _ _ _ _ _ _ h with h2 | ⟨p, hp, i, he⟩
      · cases h2
      · exact Or.inl ⟨p, i, hp, he⟩
    | some recs =>
      rw [hl] at h
      rcases createAuthRows_mem _ _ _ _ _ _ h with h2 | ⟨p, hp, i, he⟩
      · rcases updateAuthRows_mem _ _ _ _ _ h2 with h3 | ⟨r0, hr0, he⟩
        · cases h3
        · exact Or.inr ⟨recs, r0, rfl, (List.mem_filter.mp hr0).1, he⟩
      · exact Or.inl ⟨p, i, (List.mem_filter.mp hp).1, he⟩

theorem mem_mobilePhonesOfVal (v : PyVal) (p : String)
    (h : p ∈ mobilePhonesOfVal v) : isMobilePhone p = true := by
  cases v with
  | str s =>
    by_cases hs : s = ""
    · rw [show mobilePhonesOfVal (PyVal.str s) = [] from by
        simp [mobilePhonesOfVal, hs]] at h
      cases h
    · rw [show mobilePhonesOfVal (PyVal.str s) =
          (normalizePhonesString s).filter isMobilePhone from by
        simp [mobilePhonesOfVal, hs]] at h
      exact (List.mem_filter.mp h).2
  | none => cases h
  | list l => cases h

theorem addToGroup_mem {α : Type} :
    ∀ (gs : List (String × List α)) (k : String) (x : α)
      (pr : String × List α) (y : α),
    pr ∈ addToGroup gs k x → y ∈ pr.2 →
    (∃ pr0 ∈ gs, pr0.1 = pr.1 ∧ y ∈ pr0.2) ∨ (y = x ∧ pr.1 = k) := by
  intro gs
  induction gs with
  | nil =>
    intro k x pr y hpr hy
    rw [show addToGroup [] k x = [(k, [x])] from rfl, List.mem_singleton] at hpr
    subst hpr
    rw [List.mem_singleton] at hy
    exact Or.inr ⟨hy, rfl⟩
  | cons g t ih =>
    intro k x pr y hpr hy
    obtain ⟨k2, xs⟩ := g
    by_cases hk : k2 = k
    · rw [show addToGroup ((k2, xs) :: t) k x = (k2, xs ++ [x]) :: t from by
        simp [addToGroup, hk]] at hpr
      rcases List.mem_cons.mp hpr with heq | hpr2
      · subst heq
        rcases List.mem_append.mp hy with hy1 | hy2
        · exact Or.inl ⟨(k2, xs), List.mem_cons_self _ _, rfl, hy1⟩
        · rw [List.mem_singleton] at hy2
          exact Or.inr ⟨hy2, hk⟩
      · exact Or.inl ⟨pr, List.mem_cons_of_mem _ hpr2, rfl, hy⟩
    · rw [show addToGroup ((k2, xs) :: t) k x = (k2, xs) :: addToGroup t k x from by
        simp [addToGroup, hk]] at hpr
      rcases List.mem_cons.mp hpr with heq | hpr2
      · subst heq
        exact Or.inl ⟨(k2, xs), List.mem_cons_self _ _, rfl, hy⟩
      · rcases ih k x pr y hpr2 hy with ⟨pr0, h0, h1, h2⟩ | h
        · exact Or.inl ⟨pr0, List.mem_cons_of_mem _ h0, h1, h2⟩
        · exact Or.inr h

theorem groupAuth_foldl_mem (rows : List AuthRow) :
    ∀ (acc : List (String × List AuthRow)) (pr : String × List AuthRow) (r : AuthRow),
    pr ∈ rows.foldl
      (fun gs r => if truthyStr r.name then addToGroup gs (getStr r.name) r else gs) acc →
    r ∈ pr.2 →
    (∃ pr0 ∈ acc, pr0.1 = pr.1 ∧ r ∈ pr0.2) ∨ (r ∈ rows ∧ r.name = some pr.1) := by
  induction rows with
  | nil =>
    intro acc pr r hpr hr
    exact Or.inl ⟨pr, hpr, rfl, hr⟩
  | cons row rest ih =>
    intro acc pr r hpr hr
    rcases ih (if truthyStr row.name then addToGroup acc (getStr row.name) row else acc)
      pr r hpr hr with ⟨pr0, h0, h1, h2⟩ | h
    · by_cases ht : truthyStr row.name = true
      · rw [if_pos ht] at h0
        rcases addToGroup_mem acc (getStr row.name) row pr0 r h0 h2 with
          ⟨pr1, hp1, hp2, hp3⟩ | ⟨hre, hke⟩
        · exact Or.inl ⟨pr1, hp1, by rw [hp2, h1], hp3⟩
        · subst hre
          refine Or.inr ⟨List.mem_cons_self _ _, ?_⟩
          rw [← h1, hke]
          exact truthy_name_eq _ ht
      · rw [if_neg ht] at h0
        exact Or.inl ⟨pr0, h0, h1, h2⟩
    · exact Or.inr ⟨List.mem_cons_of_mem _ h.1, h.2⟩

theorem groupAuth_mem (rows : List AuthRow) (pr : String × List AuthRow) (r : AuthRow)
    (hpr : pr ∈ groupAuth rows) (hr : r ∈ pr.2) : r ∈ rows ∧ r.name = some pr.1 := by
  rcases groupAuth_foldl_mem rows [] pr r hpr hr with ⟨pr0, h0, _, _⟩ | h
  · cases h0
  · exact h

theorem foldl_roleUpdate_id (today : PDate) (usersPivot : List PivotRow) :
    ∀ (l : List AuthRow) (rows : List AuthRow),
    (∀ u ∈ l, checkUserRole today u usersPivot = false) →
    l.foldl (fun rows user =>
      if checkUserRole today user usersPivot then
        rows.map (fun r => if r.id = user.id then { r with role := some "employee" } else r)
      else rows) rows = rows := by
  intro l
  induction l with
  | nil => intro rows _; rfl
  | cons u t ih =>
    intro rows h
    rw [List.foldl_cons]
    rw [show (if checkUserRole today u usersPivot then
        rows.map (fun r => if r.id = u.id then { r with role := some "employee" } else r)
      else rows) = rows from by rw [h u (List.mem_cons_self _ _)]; rfl]
    exact ih rows (fun a ha => h a (List.mem_cons_of_mem _ ha))

theorem checkUserRole_no_snils (today : PDate) (user : AuthRow)
    (usersPivot : List PivotRow) (h : user.snils = Option.none) :
    checkUserRole today user usersPivot = false := by
  unfold checkUserRole
  rw [h]

/-- **C1.** The claim says a run of the daily role recheck promotes every
`newcomer` authorization record with tenure of at least 3 months to
`employee`.  In the code this never happens: every writer of
authorization rows (`mkAuthRow`) and of pivot rows (`newRowFromWrite`,
`mergeWrite`) stores the identity under `Name` and never writes a `SNILS`
column, while `RoleChecker._check_user_role` reads `user.get('SNILS')`;
for every table this system builds the lookup misses, the check returns
`false` for each record, and `check_and_update_roles` leaves the
authorization table untouched. -/
theorem claim_C1_role_recheck_never_promotes :
    (∀ sn f p ro i, (mkAuthRow sn f p ro i).snils = Option.none) ∧
    (∀ rid w, (newRowFromWrite rid w).snils = Option.none) ∧
    (∀ r w, (mergeWrite r w).snils = r.snils) ∧
    ∀ (today : PDate) (authRows : List AuthRow) (usersPivot : List PivotRow),
      (∀ r ∈ authRows, r.snils = Option.none) →
      (∀ user ∈ authRows, checkUserRole today user usersPivot = false) ∧
      checkAndUpdateRoles today authRows usersPivot = authRows := by
  refine ⟨fun _ _ _ _ _ => rfl, fun _ _ => rfl, fun r w => mergeWrite_snils r w, ?_⟩
  intro today authRows usersPivot h
  have hfalse : ∀ user ∈ authRows, checkUserRole today user usersPivot = false :=
    fun user hu => checkUserRole_no_snils today user usersPivot (h user hu)
  refine ⟨hfalse, ?_⟩
  unfold checkAndUpdateRoles
  by_cases h1 : authRows.filter (fun r => r.role = some "newcomer") = []
  · rw [if_pos h1]
  · rw [if_neg h1]
    by_cases h2 : usersPivot = []
    · rw [if_pos h2]
    · rw [if_neg h2]
      exact foldl_roleUpdate_id today usersPivot _ authRows
        (fun u hu => hfalse u (List.mem_filter.mp hu).1)

theorem claim_C1_role_recheck_never_promotes_witness :
    ((∀ r ∈ [c1Auth], r.snils = Option.none) ∧
      isStillNewcomer ⟨2025, 6, 15⟩ (parseDateOpt c1Pivot.dateEmployment) = false ∧
      c1Auth.role = some "newcomer") ∧
    checkAndUpdateRoles ⟨2025, 6, 15⟩ [c1Auth] [c1Pivot] = [c1Auth] :=
  ⟨⟨by decide, by decide, by decide⟩,
    (claim_C1_role_recheck_never_promotes.2.2.2 ⟨2025, 6, 15⟩ [c1Auth] [c1Pivot]
      (by decide)).2⟩

theorem archFold_ops (snap2 : List (String × List AuthRow)) :
    ∀ (l : List (String × PivotRow)) (acc : AuthState × List AOp) (op : AOp),
    op ∈ (l.foldl
      (fun acc pr =>
        match lookupD snap2 pr.1 with
        | Option.none => acc
        | some records => deleteAuthRows records acc) acc).2 →
    op ∈ acc.2 ∨ ∃ rid, op = AOp.delete rid := by
  intro l acc op h
  have hstep : ∀ (acc2 : AuthState × List AOp) (pr : String × PivotRow) (op2 : AOp),
      op2 ∈ ((fun (acc : AuthState × List AOp) (pr : String × PivotRow) =>
        match lookupD snap2 pr.1 with
        | Option.none => acc
        | some records => deleteAuthRows records acc) acc2 pr).2 →
      op2 ∈ acc2.2 ∨ (∃ rid, op2 = AOp.delete rid) := by
    intro acc2 pr op2 h2
    dsimp only at h2
    cases hl : lookupD snap2 pr.1 with
    | none =>
      rw [hl] at h2
      exact Or.inl h2
    | some records =>
      rw [hl] at h2
      rcases deleteAuthRows_mem records acc2 op2 h2 with h3 | ⟨r0, _, h4⟩
      · exact Or.inl h3
      · exact Or.inr ⟨r0.id, h4⟩
  rcases foldl_log_mem _ _ hstep l acc op h with h1 | ⟨_, _, h2⟩
  · exact Or.inl h1
  · exact Or.inr h2

theorem activeFold_ops (today : PDate) (snap : List (String × List AuthRow)) :
    ∀ (l : List (String × PivotRow)) (acc : AuthState × List AOp) (op : AOp),
    op ∈ (l.foldl
      (fun (acc : AuthState × List AOp) pr =>
        let r := syncAuthUserStep today snap pr.1 pr.2 acc.1
        (r.1, acc.2 ++ r.2)) acc).2 →
    op ∈ acc.2 ∨ ∃ pr ∈ l,
      (∃ p i, p ∈ mobilePhonesOfVal pr.2.phones ∧
        op = AOp.create (mkAuthRow pr.1 (getStr pr.2.fio) p (roleFor today pr.2.dateEmployment) i)) ∨
      (∃ recs r0, lookupD snap pr.1 = some recs ∧ r0 ∈ recs ∧
        op = AOp.update r0.id (getStr pr.2.fio) (roleFor today pr.2.dateEmployment)) := by
  intro l acc op h
  have hstep : ∀ (acc2 : AuthState × List AOp) (pr : String × PivotRow) (op2 : AOp),
      op2 ∈ ((fun (acc : AuthState × List AOp) (pr : String × PivotRow) =>
        let r := syncAuthUserStep today snap pr.1 pr.2 acc.1
        (r.1, acc.2 ++ r.2)) acc2 pr).2 →
      op2 ∈ acc2.2 ∨
        ((∃ p i, p ∈ mobilePhonesOfVal pr.2.phones ∧
          op2 = AOp.create (mkAuthRow pr.1 (getStr pr.2.fio) p (roleFor today pr.2.dateEmployment) i)) ∨
        (∃ recs r0, lookupD snap pr.1 = some recs ∧ r0 ∈ recs ∧
          op2 = AOp.update r0.id (getStr pr.2.fio) (roleFor today pr.2.dateEmployment))) := by
    intro acc2 pr op2 h2
    have h3 : op2 ∈ acc2.2 ++ (syncAuthUserStep today snap pr.1 pr.2 acc2.1).2 := h2
    rcases List.mem_append.mp h3 with h4 | h4
    · exact Or.inl h4
    · exact Or.inr (syncAuthUserStep_ops today snap pr.1 pr.2 acc2.1 op2 h4)
  exact foldl_log_mem _ _ hstep l acc op h

theorem syncAuth_ops (today : PDate) (pivotUsers : List (String × PivotRow))
    (st : AuthState) (op : AOp) (h : op ∈ (syncAuth today pivotUsers st).2) :
    (∃ pr, pr ∈ pivotUsers.filter (fun pr => isActivePivot pr.2) ∧
      ((∃ p i, p ∈ mobilePhonesOfVal pr.2.phones ∧
        op = AOp.create (mkAuthRow pr.1 (getStr pr.2.fio) p (roleFor today pr.2.dateEmployment) i)) ∨
       (∃ rid, op = AOp.update rid (getStr pr.2.fio) (roleFor today pr.2.dateEmployment)))) ∨
    (∃ rid, op = AOp.delete rid) := by
  unfold syncAuth at h
  dsimp only at h
  rcases archFold_ops _ _ _ op h with h1 | hdel
  · rcases activeFold_ops today _ _ _ op h1 with h2 | ⟨pr, hpr, hP⟩
    · simp at h2
    · rcases hP with hc | ⟨recs, r0, _, _, hu⟩
      · exact Or.inl ⟨pr, hpr, Or.inl hc⟩
      · exact Or.inl ⟨pr, hpr, Or.inr ⟨r0.id, hu⟩⟩
  · exact Or.inr hdel

theorem roleFor_newcomer_iff (today : PDate) (ds : Option String) :
    roleFor today ds = "newcomer" ↔
      ∃ d, parseDateOpt ds = some d ∧ PDate.Lt (subMonths today 3) d := by
  unfold roleFor
  cases hp : parseDateOpt ds with
  | none =>
    dsimp only
    constructor
    · intro h
      exact absurd h (by decide)
    · rintro ⟨d, hd, _⟩
      cases hd
  | some d =>
    dsimp only
    by_cases hlt : PDate.Lt (subMonths today 3) d
    · rw [if_pos hlt]
      exact ⟨fun _ => ⟨d, rfl, hlt⟩, fun _ => rfl⟩
    · rw [if_neg hlt]
      constructor
      · intro h
        exact absurd h (by decide)
      · rintro ⟨d2, hd2, hlt2⟩
        injection hd2 with hdd
        subst hdd
        exact absurd hlt2 hlt

theorem roleFor_cases (today : PDate) (ds : Option String) :
    roleFor today ds = "newcomer" ∨ roleFor today ds = "employee" := by
  unfold roleFor
  cases parseDateOpt ds with
  | none => exact Or.inr rfl
  | some d =>
    dsimp only
    by_cases hlt : PDate.Lt (subMonths today 3) d
    · rw [if_pos hlt]
      exact Or.inl rfl
    · rw [if_neg hlt]
      exact Or.inr rfl

theorem mobilePhone_shape (v : PyVal) (p : String) (h : p ∈ mobilePhonesOfVal v) :
    chStartsWith p.data "+7".data = true ∧ (digitsOnly p).length = 11 := by
  have hm := mem_mobilePhonesOfVal v p h
  unfold isMobilePhone at hm
  rw [Bool.and_eq_true] at hm
  exact ⟨hm.1, of_decide_eq_true hm.2⟩

/-- **C6.** For every active pivot record the authorization synchronizer
processes, each row it creates carries that record's identity, full name,
a phone drawn from the record's mobile-filtered phone set — so it starts
with `+7` and holds exactly 11 digits, landline and malformed values never
making it through `mobilePhonesOfVal` — and the role computed from the
hire date; each update it issues likewise carries that name and role; and
the role is `newcomer` exactly when the parsed hire date is strictly after
`today` minus 3 months, `employee` otherwise. -/
theorem claim_C6_auth_role_and_phones (today : PDate)
    (pivotUsers : List (String × PivotRow)) (st : AuthState) :
    (∀ ds, (roleFor today ds = "newcomer" ∨ roleFor today ds = "employee") ∧
      (roleFor today ds = "newcomer" ↔
        ∃ d, parseDateOpt ds = some d ∧ PDate.Lt (subMonths today 3) d)) ∧
    (∀ v p, p ∈ mobilePhonesOfVal v →
      chStartsWith p.data "+7".data = true ∧ (digitsOnly p).length = 11) ∧
    (∀ op, op ∈ (syncAuth today pivotUsers st).2 →
      (∀ r, op = AOp.create r →
        ∃ s pu p, (s, pu) ∈ pivotUsers ∧ isActivePivot pu = true ∧
          p ∈ mobilePhonesOfVal pu.phones ∧
          r.name = some s ∧ r.fio = some (getStr pu.fio) ∧ r.phone = some p ∧
          r.role = some (roleFor today pu.dateEmployment)) ∧
      (∀ rid f ro, op = AOp.update rid f ro →
        ∃ s pu, (s, pu) ∈ pivotUsers ∧ isActivePivot pu = true ∧
          f = getStr pu.fio ∧ ro = roleFor today pu.dateEmployment)) := by
  refine ⟨fun ds => ⟨roleFor_cases today ds, roleFor_newcomer_iff today ds⟩,
    fun v p hp => mobilePhone_shape v p hp, ?_⟩
  intro op hop
  rcases syncAuth_ops today pivotUsers st op hop with ⟨pr, hprF, hP⟩ | ⟨rid, hdel⟩
  · have hprM := List.mem_filter.mp hprF
    constructor
    · intro r hr
      rcases hP with ⟨p, i, hp, hco⟩ | ⟨rid, hu⟩
      · rw [hr] at hco
        injection hco with hre
        subst hre
        exact ⟨pr.1, pr.2, p, hprM.1, hprM.2, hp, rfl, rfl, rfl, rfl⟩
      · rw [hr] at hu
        simp at hu
    · intro rid2 f ro hr
      rcases hP with ⟨p, i, hp, hco⟩ | ⟨rid, hu⟩
      · rw [hr] at hco
        simp at hco
      · rw [hr] at hu
        injection hu with h1 h2 h3
        exact ⟨pr.1, pr.2, hprM.1, hprM.2, h2, h3⟩
  · constructor
    · intro r hr
      rw [hr] at hdel
      simp at hdel
    · intro rid2 f ro hr
      rw [hr] at hdel
      simp at hdel

theorem claim_C6_auth_role_and_phones_witness :
    (AOp.create (mkAuthRow "111-222" "Ivanov" "+79991234567" "newcomer" 1) ∈
      (syncAuth ⟨2025, 6, 15⟩ [("111-222", c6Pu)] ⟨[], 1⟩).2) ∧
    (∃ s pu p, (s, pu) ∈ [("111-222", c6Pu)] ∧ isActivePivot pu = true ∧
      p ∈ mobilePhonesOfVal pu.phones ∧
      (mkAuthRow "111-222" "Ivanov" "+79991234567" "newcomer" 1).name = some s ∧
      (mkAuthRow "111-222" "Ivanov" "+79991234567" "newcomer" 1).fio = some (getStr pu.fio) ∧
      (mkAuthRow "111-222" "Ivanov" "+79991234567" "newcomer" 1).phone = some p ∧
      (mkAuthRow "111-222" "Ivanov" "+79991234567" "newcomer" 1).role =
        some (roleFor ⟨2025, 6, 15⟩ pu.dateEmployment)) :=
  ⟨by decide,
    ((claim_C6_auth_role_and_phones ⟨2025, 6, 15⟩ [("111-222", c6Pu)] ⟨[], 1⟩).2.2
      (AOp.create (mkAuthRow "111-222" "Ivanov" "+79991234567" "newcomer" 1))
      (by decide)).1
      (mkAuthRow "111-222" "Ivanov" "+79991234567" "newcomer" 1) rfl⟩

theorem syncAuthUserStep_noMobiles (today : PDate) (snap : List (String × List AuthRow))
    (s' : String) (pu : PivotRow) (h : mobilePhonesOfVal pu.phones = [])
    (st2 : AuthState) : syncAuthUserStep today snap s' pu st2 = (st2, []) := by
  unfold syncAuthUserStep
  rw [if_pos h]

theorem foldl_inv_mem {β : Type} (Q : AuthState × List AOp → Prop)
    (f : AuthState × List AOp → β → AuthState × List AOp) :
    ∀ (l : List β), (∀ acc b, b ∈ l → Q acc → Q (f acc b)) →
    ∀ acc, Q acc → Q (l.foldl f acc) := by
  intro l
  induction l with
  | nil => intro _ acc h; exact h
  | cons b t ih =>
    intro hstep acc h
    rw [List.foldl_cons]
    exact ih (fun a b2 hb2 hq => hstep a b2 (List.mem_cons_of_mem _ hb2) hq) _
      (hstep acc b (List.mem_cons_self _ _) h)

theorem nameRows_append_one (s : String) (rows : List AuthRow) (r : AuthRow)
    (h : ¬ r.name = some s) : nameRows s (rows ++ [r]) = nameRows s rows := by
  unfold nameRows
  rw [List.filter_append]
  simp [List.filter_cons, h]

theorem nameRows_map_update (s : String) (rid : Nat) (f ro : String) :
    ∀ (rows : List AuthRow),
    (∀ r ∈ rows, r.name = some s → ¬ r.id = rid) →
    nameRows s (rows.map (fun r =>
      if r.id = rid then { r with fio := some f, role := some ro } else r)) =
      nameRows s rows := by
  intro rows
  induction rows with
  | nil => intro _; rfl
  | cons r t ih =>
    intro h
    have ht := ih (fun a ha hn => h a (List.mem_cons_of_mem _ ha) hn)
    rw [List.map_cons]
    have hxname : (if r.id = rid then { r with fio := some f, role := some ro } else r).name
        = r.name := by
      by_cases hc : r.id = rid
      · rw [if_pos hc]
      · rw [if_neg hc]
    by_cases hname : r.name = some s
    · have hcid := h r (List.mem_cons_self _ _) hname
      rw [if_neg hcid]
      unfold nameRows at ht ⊢
      simp [List.filter_cons, hname, ht]
    · unfold nameRows at ht ⊢
      simp [List.filter_cons, hxname, hname, ht]

theorem nameRows_filter_ne (s : String) (rid : Nat) :
    ∀ (rows : List AuthRow),
    (∀ r ∈ rows, r.name = some s → ¬ r.id = rid) →
    nameRows s (rows.filter (fun r => r.id ≠ rid)) = nameRows s rows := by
  intro rows
  induction rows with
  | nil => intro _; rfl
  | cons r t ih =>
    intro h
    have ht := ih (fun a ha hn => h a (List.mem_cons_of_mem _ ha) hn)
    unfold nameRows at ht ⊢
    rw [List.filter_cons, List.filter_cons]
    by_cases hcid : r.id = rid
    · have hnn : ¬ r.name = some s := fun hn => h r (List.mem_cons_self _ _) hn hcid
      rw [if_neg (by simp [hcid]), if_neg (by simp [hnn])]
      exact ht
    · rw [if_pos (by simp [hcid]), List.filter_cons]
      by_cases hname : r.name = some s
      · rw [if_pos (by simp [hname]), if_pos (by simp [hname]), ht]
      · rw [if_neg (by simp [hname]), if_neg (by simp [hname])]
        exact ht

theorem map_update_ids (rid : Nat) (f ro : String) :
    ∀ (l : List AuthRow),
    (l.map (fun r => if r.id = rid then { r with fio := some f, role := some ro } else r)).map
      AuthRow.id = l.map AuthRow.id := by
  intro l
  induction l with
  | nil => rfl
  | cons r t ih =>
    simp only [List.map_cons]
    rw [ih]
    congr 1
    by_cases hc : r.id = rid
    · rw [if_pos hc]
    · rw [if_neg hc]

theorem authInv_create (s : String) (orig : List AuthRow) (st : AuthState) (r : AuthRow)
    (hInv : AuthInv s orig st) (hid : r.id = st.nextId) (hn : ¬ r.name = some s) :
    AuthInv s orig (applyAOp st (AOp.create r)) := by
  obtain ⟨hf, hd, hm⟩ := hInv
  refine ⟨?_, ?_, ?_⟩
  · intro r2 h2
    have h3 : r2 ∈ st.rows ++ [r] := h2
    show r2.id < st.nextId + 1
    rcases List.mem_append.mp h3 with h4 | h4
    · exact Nat.lt_succ_of_lt (hf r2 h4)
    · rw [List.mem_singleton] at h4
      subst h4
      rw [hid]
      exact Nat.lt_succ_self _
  · show ((st.rows ++ [r]).map AuthRow.id).Nodup
    rw [List.map_append]
    refine List.Nodup.append hd (List.nodup_singleton _) ?_
    intro a ha hb
    obtain ⟨r2, hr2, hr2e⟩ := List.mem_map.mp ha
    have hb2 : a = r.id := by
      have : a ∈ [r.id] := hb
      rw [List.mem_singleton] at this
      exact this
    have h5 := hf r2 hr2
    rw [hr2e, hb2, hid] at h5
    exact Nat.lt_irrefl _ h5
  · show nameRows s (st.rows ++ [r]) = orig
    rw [nameRows_append_one s st.rows r hn, hm]

theorem authInv_update (s : String) (orig : List AuthRow) (st : AuthState)
    (rid : Nat) (f ro : String) (hInv : AuthInv s orig st)
    (h : ∀ r1 ∈ orig, ¬ r1.id = rid) :
    AuthInv s orig (applyAOp st (AOp.update rid f ro)) := by
  obtain ⟨hf, hd, hm⟩ := hInv
  have hcond : ∀ r ∈ st.rows, r.name = some s → ¬ r.id = rid := by
    intro r hr hn
    refine h r ?_
    rw [← hm]
    exact List.mem_filter.mpr ⟨hr, decide_eq_true hn⟩
  refine ⟨?_, ?_, ?_⟩
  · intro r2 h2
    obtain ⟨r3, hr3, he⟩ := List.mem_map.mp h2
    subst he
    show (if r3.id = rid then { r3 with fio := some f, role := some ro } else r3).id < st.nextId
    have hide : (if r3.id = rid then { r3 with fio := some f, role := some ro } else r3).id
        = r3.id := by
      by_cases hc : r3.id = rid
      · rw [if_pos hc]
      · rw [if_neg hc]
    rw [hide]
    exact hf r3 hr3
  · show ((st.rows.map (fun r =>
      if r.id = rid then { r with fio := some f, role := some ro } else r)).map
        AuthRow.id).Nodup
    rw [map_update_ids]
    exact hd
  · show nameRows s (st.rows.map (fun r =>
      if r.id = rid then { r with fio := some f, role := some ro } else r)) = orig
    rw [nameRows_map_update s rid f ro st.rows hcond, hm]

theorem authInv_delete (s : String) (orig : List AuthRow) (st : AuthState) (rid : Nat)
    (hInv : AuthInv s orig st) (h : ∀ r1 ∈ orig, ¬ r1.id = rid) :
    AuthInv s orig (applyAOp st (AOp.delete rid)) := by
  obtain ⟨hf, hd, hm⟩ := hInv
  have hcond : ∀ r ∈ st.rows, r.name = some s → ¬ r.id = rid := by
    intro r hr hn
    refine h r ?_
    rw [← hm]
    exact List.mem_filter.mpr ⟨hr, decide_eq_true hn⟩
  refine ⟨?_, ?_, ?_⟩
  · intro r2 h2
    have h3 : r2 ∈ st.rows.filter (fun r => r.id ≠ rid) := h2
    exact hf r2 (List.mem_filter.mp h3).1
  · show ((st.rows.filter (fun r => r.id ≠ rid)).map AuthRow.id).Nodup
    have hsub : List.Sublist ((st.rows.filter (fun r => r.id ≠ rid)).map AuthRow.id)
        (st.rows.map AuthRow.id) := (List.filter_sublist _).map _
    exact List.Nodup.sublist hsub hd
  · show nameRows s (st.rows.filter (fun r => r.id ≠ rid)) = orig
    rw [nameRows_filter_ne s rid st.rows hcond, hm]

theorem authInv_createAuthRows (s : String) (orig : List AuthRow) (sn f ro : String)
    (hne : sn ≠ s) (phones : List String) (acc : AuthState × List AOp)
    (hInv : AuthInv s orig acc.1) :
    AuthInv s orig (createAuthRows sn f ro phones acc).1 := by
  unfold createAuthRows
  refine foldl_inv_mem (fun a => AuthInv s orig a.1) _ phones ?_ acc hInv
  intro acc2 p _ hq
  show AuthInv s orig (applyAOp acc2.1 (AOp.create (mkAuthRow sn f p ro acc2.1.nextId)))
  refine authInv_create s orig acc2.1 _ hq rfl ?_
  intro hcon
  have h2 : some sn = some s := hcon
  injection h2 with h3
  exact hne h3

theorem authInv_updateAuthRows (s : String) (orig : List AuthRow) (f ro : String)
    (records : List AuthRow)
    (h : ∀ r0 ∈ records, ∀ r1 ∈ orig, ¬ r1.id = r0.id)
    (acc : AuthState × List AOp) (hInv : AuthInv s orig acc.1) :
    AuthInv s orig (updateAuthRows f ro records acc).1 := by
  unfold updateAuthRows
  refine foldl_inv_mem (fun a => AuthInv s orig a.1) _ records ?_ acc hInv
  intro acc2 r0 hr0 hq
  show AuthInv s orig (applyAOp acc2.1 (AOp.update r0.id f ro))
  exact authInv_update s orig acc2.1 r0.id f ro hq (fun r1 h1 => h r0 hr0 r1 h1)

theorem authInv_deleteAuthRows (s : String) (orig : List AuthRow)
    (records : List AuthRow)
    (h : ∀ r0 ∈ records, ∀ r1 ∈ orig, ¬ r1.id = r0.id)
    (acc : AuthState × List AOp) (hInv : AuthInv s orig acc.1) :
    AuthInv s orig (deleteAuthRows records acc).1 := by
  unfold deleteAuthRows
  refine foldl_inv_mem (fun a => AuthInv s orig a.1) _ records ?_ acc hInv
  intro acc2 r0 hr0 hq
  show AuthInv s orig (applyAOp acc2.1 (AOp.delete r0.id))
  exact authInv_delete s orig acc2.1 r0.id hq (fun r1 h1 => h r0 hr0 r1 h1)

theorem authInv_syncAuthUserStep (today : PDate) (snap : List (String × List AuthRow))
    (s : String) (orig : List AuthRow) (s' : String) (pu : PivotRow)
    (hne : s' ≠ s)
    (hupd : ∀ recs, lookupD snap s' = some recs →
        ∀ r0 ∈ recs, ∀ r1 ∈ orig, ¬ r1.id = r0.id)
    (st : AuthState) (hInv : AuthInv s orig st) :
    AuthInv s orig (syncAuthUserStep today snap s' pu st).1 := by
  unfold syncAuthUserStep
  by_cases hm : mobilePhonesOfVal pu.phones = []
  · rw [if_pos hm]
    exact hInv
  · rw [if_neg hm]
    cases hl : lookupD snap s' with
    | none =>
      exact authInv_createAuthRows s orig s' (getStr pu.fio)
        (roleFor today pu.dateEmployment) hne (mobilePhonesOfVal pu.phones) (st, []) hInv
    | some recs =>
      dsimp only
      refine authInv_createAuthRows s orig s' (getStr pu.fio)
        (roleFor today pu.dateEmployment) hne _ _ ?_
      refine authInv_updateAuthRows s orig (getStr pu.fio)
        (roleFor today pu.dateEmployment) _ ?_ (st, []) hInv
      intro r0 hr0 r1 h1
      exact hupd recs hl r0 (List.mem_filter.mp hr0).1 r1 h1

theorem authInv_foldActive (today : PDate) (snap : List (String × List AuthRow))
    (s : String) (orig : List AuthRow) (active : List (String × PivotRow))
    (hself : ∀ pr ∈ active, pr.1 = s → mobilePhonesOfVal pr.2.phones = [])
    (hupd : ∀ pr ∈ active, pr.1 ≠ s → ∀ recs, lookupD snap pr.1 = some recs →
        ∀ r0 ∈ recs, ∀ r1 ∈ orig, ¬ r1.id = r0.id)
    (acc : AuthState × List AOp) (hInv : AuthInv s orig acc.1) :
    AuthInv s orig ((active.foldl
      (fun (acc : AuthState × List AOp) pr =>
        let r := syncAuthUserStep today snap pr.1 pr.2 acc.1
        (r.1, acc.2 ++ r.2)) acc)).1 := by
  refine foldl_inv_mem (fun a => AuthInv s orig a.1) _ active ?_ acc hInv
  intro acc2 pr hpr hq
  show AuthInv s orig (syncAuthUserStep today snap pr.1 pr.2 acc2.1).1
  by_cases hps : pr.1 = s
  · rw [syncAuthUserStep_noMobiles today snap pr.1 pr.2 (hself pr hpr hps) acc2.1]
    exact hq
  · exact authInv_syncAuthUserStep today snap s orig pr.1 pr.2 hps (hupd pr hpr hps) acc2.1 hq

theorem authInv_foldArchived (s : String) (orig : List AuthRow)
    (snap2 : List (String × List AuthRow)) (archived : List (String × PivotRow))
    (h : ∀ pr ∈ archived, ∀ recs, lookupD snap2 pr.1 = some recs →
        ∀ r0 ∈ recs, ∀ r1 ∈ orig, ¬ r1.id = r0.id)
    (acc : AuthState × List AOp) (hInv : AuthInv s orig acc.1) :
    AuthInv s orig ((archived.foldl
      (fun acc pr =>
        match lookupD snap2 pr.1 with
        | Option.none => acc
        | some records => deleteAuthRows records acc) acc)).1 := by
  refine foldl_inv_mem (fun a => AuthInv s orig a.1) _ archived ?_ acc hInv
  intro acc2 pr hpr hq
  show AuthInv s orig ((match lookupD snap2 pr.1 with
    | Option.none => acc2
    | some records => deleteAuthRows records acc2)).1
  cases hl : lookupD snap2 pr.1 with
  | none => exact hq
  | some records =>
    exact authInv_deleteAuthRows s orig records (h pr hpr records hl) acc2 hq

theorem archived_avoid (s : String) (pu : PivotRow) (pivotUsers : List (String × PivotRow))
    (stA : AuthState) (origRows : List AuthRow)
    (hmem : (s, pu) ∈ pivotUsers) (hact : isActivePivot pu = true)
    (hkeys : (pivotUsers.map Prod.fst).Nodup)
    (hidsA : (stA.rows.map AuthRow.id).Nodup)
    (hmA : nameRows s stA.rows = nameRows s origRows) :
    ∀ pr ∈ pivotUsers.filter (fun pr => pr.2.isArchived = some true),
      ∀ recs, lookupD (groupAuth stA.rows) pr.1 = some recs →
      ∀ r0 ∈ recs, ∀ r1 ∈ nameRows s origRows, ¬ r1.id = r0.id := by
  intro pr hpr recs hl r0 hr0 r1 hr1 hid
  have hprM := List.mem_filter.mp hpr
  have hprArch : pr.2.isArchived = some true := of_decide_eq_true hprM.2
  have hne : pr.1 ≠ s := by
    intro he
    have h2 : pr = (s, pu) :=
      List.inj_on_of_nodup_map hkeys hprM.1 hmem (by rw [he])
    rw [h2] at hprArch
    have h3 : pu.isArchived = some true := hprArch
    have h4 : isActivePivot pu = false := by
      unfold isActivePivot
      rw [h3]
      rfl
    rw [h4] at hact
    exact Bool.noConfusion hact
  have hpair := lookupD_mem (groupAuth stA.rows) pr.1 recs hl
  have hr0' := groupAuth_mem stA.rows (pr.1, recs) r0 hpair hr0
  have hr1A : r1 ∈ nameRows s stA.rows := by rw [hmA]; exact hr1
  have hr1M := List.mem_filter.mp hr1A
  have hr1n : r1.name = some s := of_decide_eq_true hr1M.2
  have he2 : r1 = r0 := List.inj_on_of_nodup_map hidsA hr1M.1 hr0'.1 hid
  rw [he2, hr0'.2] at hr1n
  injection hr1n with h3
  exact hne h3

/-- **C10.** An active pivot record whose normalized phone value yields no
valid mobile number produces no authorization write at all: its per-user
step returns the state untouched with an empty write log, and after the
whole synchronizer run — assuming distinct pivot identities, distinct
authorization row ids and a fresh id counter — the authorization rows
stored under that identity are exactly the rows that were there before:
none created, none updated (even when the stored `FIO` diverges), none
deleted. -/
theorem claim_C10_no_mobile_frame (today : PDate) (s : String) (pu : PivotRow)
    (pivotUsers : List (String × PivotRow)) (st : AuthState)
    (hmem : (s, pu) ∈ pivotUsers)
    (hact : isActivePivot pu = true)
    (hnom : mobilePhonesOfVal pu.phones = [])
    (hkeys : (pivotUsers.map Prod.fst).Nodup)
    (hfresh : ∀ r ∈ st.rows, r.id < st.nextId)
    (hids : (st.rows.map AuthRow.id).Nodup) :
    (∀ st2, syncAuthUserStep today (groupAuth st.rows) s pu st2 = (st2, [])) ∧
    nameRows s (syncAuth today pivotUsers st).1.rows = nameRows s st.rows := by
  have hkeyinj : ∀ pr ∈ pivotUsers, pr.1 = s → pr.2 = pu := by
    intro pr hpr heq
    have h2 : pr = (s, pu) :=
      List.inj_on_of_nodup_map hkeys hpr hmem (by rw [heq])
    rw [h2]
  refine ⟨fun st2 => syncAuthUserStep_noMobiles today (groupAuth st.rows) s pu hnom st2, ?_⟩
  have hInv0 : AuthInv s (nameRows s st.rows) st := ⟨hfresh, hids, rfl⟩
  have hself : ∀ pr ∈ pivotUsers.filter (fun pr => isActivePivot pr.2), pr.1 = s →
      mobilePhonesOfVal pr.2.phones = [] := by
    intro pr hpr heq
    rw [hkeyinj pr (List.mem_filter.mp hpr).1 heq]
    exact hnom
  have hupdh : ∀ pr ∈ pivotUsers.filter (fun pr => isActivePivot pr.2), pr.1 ≠ s →
      ∀ recs, lookupD (groupAuth st.rows) pr.1 = some recs →
      ∀ r0 ∈ recs, ∀ r1 ∈ nameRows s st.rows, ¬ r1.id = r0.id := by
    intro pr hpr hne recs hl r0 hr0 r1 hr1 hid
    have hpair := lookupD_mem (groupAuth st.rows) pr.1 recs hl
    have hr0' := groupAuth_mem st.rows (pr.1, recs) r0 hpair hr0
    have hr1M := List.mem_filter.mp hr1
    have hr1n : r1.name = some s := of_decide_eq_true hr1M.2
    have he2 : r1 = r0 := List.inj_on_of_nodup_map hids hr1M.1 hr0'.1 hid
    rw [he2, hr0'.2] at hr1n
    injection hr1n with h3
    exact hne h3
  have hInvA := authInv_foldActive today (groupAuth st.rows) s (nameRows s st.rows)
    (pivotUsers.filter (fun pr => isActivePivot pr.2)) hself hupdh (st, []) hInv0
  have harchh := archived_avoid s pu pivotUsers _ st.rows hmem hact hkeys
    hInvA.2.1 hInvA.2.2
  have hInvF := authInv_foldArchived s (nameRows s st.rows) _
    (pivotUsers.filter (fun pr => pr.2.isArchived = some true)) harchh _ hInvA
  exact hInvF.2.2

theorem claim_C10_no_mobile_frame_witness :
    ((("111-222", c10Pu) ∈ [("111-222", c10Pu), ("333-444", c10Arch)]) ∧
      isActivePivot c10Pu = true ∧
      mobilePhonesOfVal c10Pu.phones = [] ∧
      ([("111-222", c10Pu), ("333-444", c10Arch)].map Prod.fst).Nodup ∧
      (∀ r ∈ c10St.rows, r.id < c10St.nextId) ∧
      (c10St.rows.map AuthRow.id).Nodup) ∧
    nameRows "111-222"
      (syncAuth ⟨2025, 6, 15⟩ [("111-222", c10Pu), ("333-444", c10Arch)] c10St).1.rows =
      nameRows "111-222" c10St.rows :=
  ⟨⟨by decide, by decide, by decide, by decide, by decide, by decide⟩,
    (claim_C10_no_mobile_frame ⟨2025, 6, 15⟩ "111-222" c10Pu
      [("111-222", c10Pu), ("333-444", c10Arch)] c10St
      (by decide) (by decide) (by decide) (by decide) (by decide) (by decide)).2⟩
